import Mathlib

/-!
Verification development for the `suivi_sedit` repository.

This file gives a shallow embedding, in Lean 4, of the computational core of
the repository:

* `marches_sync.py` — the Excel → SQLite incremental synchronisation cache
  (`MarchesSync`): row content hashing (MD5 over the pipe-joined string
  values), file-level change detection (`file_needs_sync`) and the diff-based
  `sync_from_excel` operation;
* `marches_module.py` — the financial aggregator (`MarchesAnalyzer`):
  per-tranche initial amounts, paid totals, the per-contract global view,
  the operation-code heuristic `extract_operation` and the invoice history
  `get_historique_factures`;
* the `Database` override store of
  `suivi_commandes_factures_marches_FinaàGarder.py` restricted to the query
  side the aggregator consumes (`get_marche`, `get_tranches`, `get_avenants`,
  `get_montant_total_marche`).

Modelling conventions:

* Python / pandas scalar cell values are modelled by `Cell`
  (`nan` / numeric / string); Python floats and SQLite REALs are modelled by
  `ℚ`; pandas `NaN`-propagation rules (`NaN == x` is false, `NaN != x` is
  true, `pd.isna`, truthiness) are modelled explicitly on `Cell`.
* The SQLite store of `MarchesSync` is modelled as the record `SyncState`
  (list of `lignes_factures` rows in rowid order, append-only `sync_info`
  log).  A file on disk is modelled by `FileStat` (its `os.stat` size and
  mtime together with the MD5 hash `_calculate_file_hash` would compute);
  a missing file is `none`.
* Wall-clock readings (`datetime.now()`) enter `sync_from_excel` as the
  explicit parameter `now`; the `duration` statistic and the `last_sync`
  timestamp column, which no computation reads, are not carried.
* The single `conn.commit()` of `sync_from_excel` is the only commit in the
  operation, so a storage failure anywhere in its `try` block rolls the
  connection back to the state at entry.  Failure is injected by the
  explicit argument `fail : Option String` (the exception message); the
  staged writes are applied only when `fail = none`.
* MD5 is implemented in full (RFC 1321) over the UTF-8 bytes of the hashed
  string, as `hashlib.md5(row_str.encode())` does.
-/

set_option maxRecDepth 40000
set_option maxHeartbeats 4000000

set_option allowUnsafeReducibility true in
attribute [semireducible] Rat.add Rat.sub Rat.mul Rat.inv Rat.ofScientific

namespace MD5

/-- Bitwise complement on 32-bit words. -/
def not32 (x : Nat) : Nat := x ^^^ 0xFFFFFFFF

/-- Left rotation of a 32-bit word by `c` bits. -/
def rotl (c x : Nat) : Nat := ((x <<< c) ||| (x >>> (32 - c))) % 2 ^ 32

/-- Per-round left-rotation amounts (RFC 1321). -/
def shifts : List Nat :=
  [7, 12, 17, 22, 7, 12, 17, 22, 7, 12, 17, 22, 7, 12, 17, 22,
   5, 9, 14, 20, 5, 9, 14, 20, 5, 9, 14, 20, 5, 9, 14, 20,
   4, 11, 16, 23, 4, 11, 16, 23, 4, 11, 16, 23, 4, 11, 16, 23,
   6, 10, 15, 21, 6, 10, 15, 21, 6, 10, 15, 21, 6, 10, 15, 21]

/-- Per-round additive constants (RFC 1321). -/
def ktable : List Nat :=
  [0xd76aa478, 0xe8c7b756, 0x242070db, 0xc1bdceee,
   0xf57c0faf, 0x4787c62a, 0xa8304613, 0xfd469501,
   0x698098d8, 0x8b44f7af, 0xffff5bb1, 0x895cd7be,
   0x6b901122, 0xfd987193, 0xa679438e, 0x49b40821,
   0xf61e2562, 0xc040b340, 0x265e5a51, 0xe9b6c7aa,
   0xd62f105d, 0x02441453, 0xd8a1e681, 0xe7d3fbc8,
   0x21e1cde6, 0xc33707d6, 0xf4d50d87, 0x455a14ed,
   0xa9e3e905, 0xfcefa3f8, 0x676f02d9, 0x8d2a4c8a,
   0xfffa3942, 0x8771f681, 0x6d9d6122, 0xfde5380c,
   0xa4beea44, 0x4bdecfa9, 0xf6bb4b60, 0xbebfbc70,
   0x289b7ec6, 0xeaa127fa, 0xd4ef3085, 0x04881d05,
   0xd9d4d039, 0xe6db99e5, 0x1fa27cf8, 0xc4ac5665,
   0xf4292244, 0x432aff97, 0xab9423a7, 0xfc93a039,
   0x655b59c3, 0x8f0ccc92, 0xffeff47d, 0x85845dd1,
   0x6fa87e4f, 0xfe2ce6e0, 0xa3014314, 0x4e0811a1,
   0xf7537e82, 0xbd3af235, 0x2ad7d2bb, 0xeb86d391]

/-- UTF-8 encoding of one character, as byte values. -/
def utf8Char (c : Char) : List Nat :=
  let n := c.toNat
  if n < 0x80 then [n]
  else if n < 0x800 then [0xC0 ||| (n >>> 6), 0x80 ||| (n &&& 0x3F)]
  else if n < 0x10000 then
    [0xE0 ||| (n >>> 12), 0x80 ||| ((n >>> 6) &&& 0x3F), 0x80 ||| (n &&& 0x3F)]
  else
    [0xF0 ||| (n >>> 18), 0x80 ||| ((n >>> 12) &&& 0x3F),
     0x80 ||| ((n >>> 6) &&& 0x3F), 0x80 ||| (n &&& 0x3F)]

/-- UTF-8 encoding of a string (what `str.encode()` yields in Python). -/
def utf8Encode (s : String) : List Nat := (s.toList.map utf8Char).flatten

/-- Little-endian byte decomposition, `k` bytes. -/
def leBytes : Nat → Nat → List Nat
  | 0, _ => []
  | k + 1, n => (n % 256) :: leBytes k (n / 256)

/-- Group bytes into little-endian 32-bit words. -/
def leWords : List Nat → List Nat
  | b0 :: b1 :: b2 :: b3 :: rest =>
      (b0 + 256 * (b1 + 256 * (b2 + 256 * b3))) :: leWords rest
  | _ => []

/-- MD5 padding: a `0x80` byte, zeros to 56 mod 64, then the 64-bit
little-endian bit length. -/
def padMessage (msg : List Nat) : List Nat :=
  let len := msg.length
  msg ++ [0x80] ++ List.replicate ((56 + 64 - (len + 1) % 64) % 64) 0
      ++ leBytes 8 ((len * 8) % 2 ^ 64)

/-- Split a byte list into 64-byte blocks (fuel-driven so that the kernel
can evaluate it). -/
def chunksAux : Nat → List Nat → List (List Nat)
  | 0, _ => []
  | _, [] => []
  | fuel + 1, l => l.take 64 :: chunksAux fuel (l.drop 64)

/-- Split a byte list into 64-byte blocks. -/
def chunks (l : List Nat) : List (List Nat) := chunksAux (l.length + 1) l

/-- One MD5 compression step over a 64-byte block. -/
def processChunk (st : Nat × Nat × Nat × Nat) (block : List Nat) :
    Nat × Nat × Nat × Nat :=
  let M := leWords block
  let r := (List.range 64).foldl (fun (s : Nat × Nat × Nat × Nat) i =>
    let (A, B, C, D) := s
    let fg : Nat × Nat :=
      if i < 16 then ((B &&& C) ||| (not32 B &&& D), i)
      else if i < 32 then ((D &&& B) ||| (not32 D &&& C), (5 * i + 1) % 16)
      else if i < 48 then (B ^^^ C ^^^ D, (3 * i + 5) % 16)
      else (C ^^^ (B ||| not32 D), (7 * i) % 16)
    let f := (fg.1 + A + ktable.getD i 0 + M.getD fg.2 0) % 2 ^ 32
    (D, (B + rotl (shifts.getD i 0) f) % 2 ^ 32, B, C)) st
  ((st.1 + r.1) % 2 ^ 32, (st.2.1 + r.2.1) % 2 ^ 32,
   (st.2.2.1 + r.2.2.1) % 2 ^ 32, (st.2.2.2 + r.2.2.2) % 2 ^ 32)

/-- Lower-case hexadecimal digit. -/
def hexDigit (n : Nat) : Char :=
  if n < 10 then Char.ofNat (48 + n) else Char.ofNat (87 + n)

/-- Two-digit lower-case hexadecimal rendering of a byte. -/
def hexByte (n : Nat) : List Char := [hexDigit (n / 16), hexDigit (n % 16)]

/-- MD5 digest of a byte list, as the 16 digest bytes. -/
def digestBytes (msg : List Nat) : List Nat :=
  let st := (chunks (padMessage msg)).foldl processChunk
    (0x67452301, 0xefcdab89, 0x98badcfe, 0x10325476)
  leBytes 4 st.1 ++ leBytes 4 st.2.1 ++ leBytes 4 st.2.2.1 ++ leBytes 4 st.2.2.2

/-- `hashlib.md5(s.encode()).hexdigest()`: lower-case 32-character hex MD5 of
the UTF-8 bytes of `s`. -/
def md5Hex (s : String) : String :=
  String.mk (((digestBytes (utf8Encode s)).map hexByte).flatten)

end MD5

/-- A Python / pandas scalar cell value: `NaN`, a float, or a string.
(The spreadsheets feeding this application contain numbers, text and empty
cells; empty cells surface in pandas as `NaN`.) -/
inductive Cell where
  | nan : Cell
  | num : ℚ → Cell
  | str : String → Cell
deriving DecidableEq

namespace Cell

/-- `pd.isna`. -/
def isna : Cell → Bool
  | nan => true
  | _ => false

/-- pandas `==` comparison on scalars: `NaN` compares unequal to everything
(including itself), values of different kinds compare unequal. -/
def eqv : Cell → Cell → Bool
  | num a, num b => a = b
  | str a, str b => a = b
  | _, _ => false

/-- Python `str(v)`.  `str` of a float is Python's shortest-round-trip
decimal; we render integral floats faithfully (`100.0`) and use a `num/den`
rendering for the non-integral case, which no theorem below relies on. -/
def pyStr : Cell → String
  | nan => "nan"
  | num q => if q.den = 1 then toString q.num ++ ".0"
             else toString q.num ++ "/" ++ toString q.den
  | str s => s

/-- Python truthiness of a cell value: `float('nan')` is truthy, `0.0` and
the empty string are falsy. -/
def truthy : Cell → Bool
  | nan => true
  | num q => q ≠ 0
  | str s => s ≠ ""

end Cell

/-- Python `str.strip()` on a character list: drop leading and trailing
whitespace. -/
def stripChars (cs : List Char) : List Char :=
  ((cs.dropWhile (fun c => c.isWhitespace)).reverse.dropWhile
    (fun c => c.isWhitespace)).reverse

/-- Python `str.strip()` (ASCII whitespace; the data contains none of the
exotic Unicode whitespace where Python differs). -/
def pyStrip (s : String) : String := String.mk (stripChars s.toList)

/-- Numeric value of a digit string. -/
def digitsVal (l : List Char) : Nat :=
  l.foldl (fun a c => 10 * a + (c.toNat - 48)) 0

/-- Python `float(s)` on a string: optional sign, decimal digits with an
optional fractional part (the exponent / `inf` / `nan` spellings, which the
data never uses, are not modelled).  `none` models `float` raising
`ValueError`. -/
def parseFloat (s : String) : Option ℚ :=
  let t := stripChars s.toList
  let sgnRest : ℚ × List Char :=
    match t with
    | '-' :: cs => (-1, cs)
    | '+' :: cs => (1, cs)
    | cs => (1, cs)
  let intPart := sgnRest.2.takeWhile (fun c => c.isDigit)
  let after := sgnRest.2.drop intPart.length
  match after with
  | [] => if intPart.isEmpty then none else some (sgnRest.1 * digitsVal intPart)
  | '.' :: frac =>
      if frac.all (fun c => c.isDigit) && !(intPart.isEmpty && frac.isEmpty) then
        some (sgnRest.1 *
          (digitsVal intPart + mkRat (digitsVal frac) (10 ^ frac.length)))
      else none
  | _ => none

/-- `pd.to_numeric(·, errors='coerce').fillna(0.0)` on a cell, which is also
the behaviour of the `float(v) if pd.notna(v) else 0.0` pattern wrapped in a
`try/except` that defaults to `0.0`: missing and unparseable values coerce
to zero. -/
def toNumeric (c : Cell) : ℚ :=
  match c with
  | .nan => 0
  | .num q => q
  | .str s => (parseFloat s).getD 0

/-- Python `float(v)` on a non-`nan` cell; `none` models the `ValueError`
raised on an unparseable string. -/
def Cell.pyFloat : Cell → Option ℚ
  | .nan => none
  | .num q => some q
  | .str s => parseFloat s

/-- One row of the renamed synchronisation DataFrame `df_to_sync_renamed`
(`marches_module.load_data`), which is also the column layout of the
analyzer's `df_marches` after the cache round-trip: the eleven columns the
core reads, in DataFrame column order. -/
structure ExcelRow where
  marche : Cell
  fournisseur : Cell
  libelle : Cell
  date_sf : Cell
  num_facture : Cell
  montant_initial : Cell
  montant_sf : Cell
  montant_ttc : Cell
  num_mandat : Cell
  tranche : Cell
  commande : Cell
deriving DecidableEq

/-- `row.values`: the cell values of the row in column order. -/
def ExcelRow.values (r : ExcelRow) : List Cell :=
  [r.marche, r.fournisseur, r.libelle, r.date_sf, r.num_facture,
   r.montant_initial, r.montant_sf, r.montant_ttc, r.num_mandat,
   r.tranche, r.commande]

namespace MarchesSync

/-- `MarchesSync._calculate_row_hash`: MD5 of the row's stringified values
joined with the single character `|`. -/
def calculate_row_hash (r : ExcelRow) : String :=
  MD5.md5Hex (String.intercalate "|" (r.values.map Cell.pyStr))

/-- One row of the `lignes_factures` table (the `row_data` dictionary of
`sync_from_excel`); `id` / import timestamps, which nothing reads, are not
carried.  Rows are kept in rowid (insertion) order. -/
structure RowData where
  hash_ligne : String
  marche : Option String
  fournisseur : Option String
  libelle : Option String
  date_sf : Option String
  num_facture : Option String
  montant_initial : ℚ
  montant_sf : ℚ
  montant_ttc : ℚ
  num_mandat : Option String
  tranche : Option String
  commande : Option String
deriving DecidableEq

/-- `str(row.get(c)) if pd.notna(row.get(c)) else None`. -/
def strCol (c : Cell) : Option String :=
  if c.isna then none else some c.pyStr

/-- `float(row.get(c, 0)) if pd.notna(row.get(c)) else 0.0`; `none` models
the `ValueError` that `float` raises on an unparseable string (aborting the
whole sync into its error path). -/
def floatCol (c : Cell) : Option ℚ :=
  if c.isna then some 0 else c.pyFloat

/-- Build the `row_data` record of `sync_from_excel` for a row whose hash is
`h`; `none` when one of the three `float(...)` conversions raises. -/
def extractRowData (h : String) (r : ExcelRow) : Option RowData :=
  match floatCol r.montant_initial, floatCol r.montant_sf,
        floatCol r.montant_ttc with
  | some mi, some msf, some mttc =>
      some { hash_ligne := h
             marche := strCol r.marche
             fournisseur := strCol r.fournisseur
             libelle := strCol r.libelle
             date_sf := strCol r.date_sf
             num_facture := strCol r.num_facture
             montant_initial := mi
             montant_sf := msf
             montant_ttc := mttc
             num_mandat := strCol r.num_mandat
             tranche := strCol r.tranche
             commande := strCol r.commande }
  | _, _, _ => none

/-- One row of the `sync_info` table (the `last_sync` timestamp column,
which no computation reads, is not carried). -/
structure SyncInfo where
  fichier_path : String
  last_modified : ℚ
  file_size : Nat
  file_hash : String
  nb_lignes : Nat
  sync_status : String
  sync_message : String
deriving DecidableEq

/-- The SQLite store of `MarchesSync`: the `lignes_factures` table in rowid
order and the append-only `sync_info` log in id order. -/
structure SyncState where
  lignes_factures : List RowData
  sync_info : List SyncInfo
deriving DecidableEq

/-- `os.stat` data of an existing source file together with the MD5 content
hash `_calculate_file_hash` computes for it. -/
structure FileStat where
  st_size : Nat
  st_mtime : ℚ
  contentHash : String
deriving DecidableEq

/-- The most recent `sync_info` row for a path
(`SELECT ... WHERE fichier_path = ? ORDER BY id DESC LIMIT 1`). -/
def lastSyncInfo (st : SyncState) (filepath : String) : Option SyncInfo :=
  (st.sync_info.filter (fun i => i.fichier_path == filepath)).getLast?

/-- `MarchesSync.file_needs_sync`.  The current file is `fs` (`none` when
`os.path.exists` is false). -/
def file_needs_sync (st : SyncState) (filepath : String)
    (fs : Option FileStat) : Bool × String :=
  match fs with
  | none => (true, "Fichier introuvable")
  | some f =>
    match lastSyncInfo st filepath with
    | none => (true, "Première synchronisation")
    | some info =>
      if f.st_size ≠ info.file_size then
        (true, "Taille du fichier changée (" ++ toString info.file_size ++
          " → " ++ toString f.st_size ++ " octets)")
      else if info.nb_lignes = 0 then
        (true, "Base vide")
      else if 1 < |f.st_mtime - info.last_modified| then
        if f.contentHash ≠ info.file_hash then
          (true, "Contenu du fichier modifié")
        else
          (false, "Fichier inchangé (date modifiée mais contenu identique)")
      else
        (false, "Fichier inchangé")

/-- The synchronisation statistics dictionary (`duration`, a wall-clock
reading, is not carried). -/
structure SyncStats where
  nb_inserted : Nat
  nb_updated : Nat
  nb_unchanged : Nat
  nb_deleted : Nat
  status : String
  message : Option String
deriving DecidableEq

/-- The row loop of `sync_from_excel`: hash each row, build its `row_data`,
count it as unchanged when its hash is already stored, else queue it for
insertion.  Returns `(new_hashes, rows_to_insert, nb_unchanged)`, or the
error message of the first failing `float(...)` conversion. -/
def processRows (existing : List String) :
    List ExcelRow → Except String (List String × List RowData × Nat)
  | [] => .ok ([], [], 0)
  | r :: rest =>
    let h := calculate_row_hash r
    match extractRowData h r with
    | none => .error "could not convert string to float"
    | some rd =>
      match processRows existing rest with
      | .error e => .error e
      | .ok (hs, ins, unch) =>
        if existing.contains h then
          .ok (h :: hs, ins, unch + 1)
        else
          .ok (h :: hs, rd :: ins, unch)

/-- `INSERT OR REPLACE INTO lignes_factures`: on a `hash_ligne` conflict the
old row is deleted and the new row gets a fresh rowid at the end. -/
def insert_or_replace (rows : List RowData) (rd : RowData) : List RowData :=
  rows.filter (fun x => x.hash_ligne != rd.hash_ligne) ++ [rd]

/-- `MarchesSync.sync_from_excel`.  `fs` is the current stat/hash of
`filepath` (`none` if the file does not exist), `now` the wall clock, and
`fail` injects a storage failure (the exception message): the code's single
`conn.commit()` sits at the end of the `try` block, so on any failure the
rollback restores the state at entry. -/
def sync_from_excel (st : SyncState) (filepath : String)
    (fs : Option FileStat) (now : ℚ) (df : List ExcelRow) (force : Bool)
    (fail : Option String) : SyncState × SyncStats :=
  let stats0 : SyncStats :=
    { nb_inserted := 0, nb_updated := 0, nb_unchanged := 0, nb_deleted := 0,
      status := "success", message := none }
  if force = false ∧ (file_needs_sync st filepath fs).1 = false then
    (st, { stats0 with status := "skipped",
                       message := some (file_needs_sync st filepath fs).2 })
  else
    let existing := st.lignes_factures.map (fun rd => rd.hash_ligne)
    match processRows existing df with
    | .error e => (st, { stats0 with status := "error", message := some e })
    | .ok (new_hashes, rows_to_insert, unchanged) =>
      let st1 : SyncState :=
        { st with lignes_factures :=
            rows_to_insert.foldl insert_or_replace st.lignes_factures }
      let hashes_to_delete :=
        existing.dedup.filter (fun h => !(new_hashes.contains h))
      let st2 : SyncState :=
        { st1 with lignes_factures :=
            (st1.lignes_factures.filter
              (fun rd => !(hashes_to_delete.contains rd.hash_ligne))) }
      let fileData : ℚ × Nat × String :=
        match fs with
        | some f => (f.st_mtime, f.st_size, f.contentHash)
        | none => (now, 0, "database_sync")
      let info : SyncInfo :=
        { fichier_path := filepath
          last_modified := fileData.1
          file_size := fileData.2.1
          file_hash := fileData.2.2
          nb_lignes := df.length
          sync_status := "success"
          sync_message := "Sync OK: " ++ toString rows_to_insert.length ++
            " insérées, " ++ toString hashes_to_delete.length ++
            " supprimées, " ++ toString unchanged ++ " inchangées" }
      let st3 : SyncState := { st2 with sync_info := st2.sync_info ++ [info] }
      match fail with
      | some m =>
          (st, { stats0 with
                 status := "error"
                 message := some m
                 nb_inserted := rows_to_insert.length
                 nb_unchanged := unchanged
                 nb_deleted := hashes_to_delete.length })
      | none =>
          (st3, { stats0 with
                  nb_inserted := rows_to_insert.length
                  nb_unchanged := unchanged
                  nb_deleted := hashes_to_delete.length })

/-- All three `float(...)` conversions succeed on every row of `df` (no
`ValueError` is raised while building the `row_data` records). -/
def rowsExtractOk (df : List ExcelRow) : Bool :=
  df.all (fun r => (extractRowData (calculate_row_hash r) r).isSome)

end MarchesSync

/-- First-occurrence deduplication with an accumulator of already-seen
values. -/
def uniqueAux {α : Type} [DecidableEq α] : List α → List α → List α
  | [], _ => []
  | x :: xs, seen =>
    if x ∈ seen then uniqueAux xs seen else x :: uniqueAux xs (x :: seen)

/-- First-occurrence deduplication, as pandas `Series.unique()` (order of
first appearance is preserved). -/
def uniqueList {α : Type} [DecidableEq α] (l : List α) : List α :=
  uniqueAux l []

/-- Stable insertion of `x` into `l`: `x` goes in front of the first element
`y` with `lt x y`, hence after every earlier element with an equal key. -/
def insertSorted {α : Type} (lt : α → α → Bool) (x : α) : List α → List α
  | [] => [x]
  | y :: ys => if lt x y then x :: y :: ys else y :: insertSorted lt x ys

/-- Stable sort by the strict comparator `lt` — extensionally the behaviour
of Python's stable `list.sort(key=...)` (and, with the flipped comparator,
of `sort(key=..., reverse=True)`). -/
def stableSortBy {α : Type} (lt : α → α → Bool) (l : List α) : List α :=
  l.foldl (fun acc x => insertSorted lt x acc) []

/-- Lexicographic strict comparison of character lists by code point
(Python string `<`). -/
def charListLt : List Char → List Char → Bool
  | [], [] => false
  | [], _ :: _ => true
  | _ :: _, [] => false
  | a :: as, b :: bs =>
    if a.toNat < b.toNat then true
    else if b.toNat < a.toNat then false
    else charListLt as bs

/-- Python `<` on strings. -/
def strLt (a b : String) : Bool := charListLt a.toList b.toList

/-- Python `<` on sort keys drawn from cells.  Mixed-kind or `NaN`
comparisons, on which Python would raise `TypeError` (the application only
ever sorts homogeneous string keys), are given the value `false`. -/
def cellLt : Cell → Cell → Bool
  | .str a, .str b => strLt a b
  | .num a, .num b => decide (a < b)
  | _, _ => false

/-- Python `int(q)` on a float: truncation toward zero. -/
def truncQ (q : ℚ) : Int :=
  q.num.sign * ((q.num.natAbs / q.den : Nat) : Int)

/-- One row of the `marches` table, restricted to the columns the embedded
queries read (`code_marche` is UNIQUE). -/
structure MarcheRec where
  code_marche : String
  type_marche : Option String
  montant_initial_manuel : Option ℚ
deriving DecidableEq

/-- One row of the `tranches` table (columns the embedded queries read). -/
structure TrancheRec where
  code_marche : String
  code_tranche : String
  montant : Option ℚ
deriving DecidableEq

/-- One row of the `avenants` table (columns the embedded queries read). -/
structure AvenantRec where
  code_marche : String
  montant : Option ℚ
  type_modification : String
deriving DecidableEq

/-- The manual-override store of the surrounding application (`Database` in
`suivi_commandes_factures_marches_FinaàGarder.py`), read-only here.
`tranches` is kept in `ordre` order and `avenants` in `numero_avenant`
order, which is the order the `ORDER BY` queries return. -/
structure Database where
  marches : List MarcheRec
  tranches : List TrancheRec
  avenants : List AvenantRec
deriving DecidableEq

/-- SQLite comparison of a TEXT column against a bound Python value: only a
string bind can equal a TEXT value (a REAL or `None` bind never does). -/
def sqlEqText (col : String) (v : Cell) : Bool :=
  match v with
  | .str s => col == s
  | _ => false

/-- `Database.get_marche`: `SELECT * FROM marches WHERE code_marche = ?`
(first row; the code is UNIQUE). -/
def Database.get_marche (db : Database) (code : Cell) : Option MarcheRec :=
  db.marches.find? (fun m => sqlEqText m.code_marche code)

/-- `Database.get_tranches`:
`SELECT * FROM tranches WHERE code_marche = ? ORDER BY ordre`. -/
def Database.get_tranches (db : Database) (code : Cell) : List TrancheRec :=
  db.tranches.filter (fun t => sqlEqText t.code_marche code)

/-- `Database.get_avenants`:
`SELECT * FROM avenants WHERE code_marche = ? ORDER BY numero_avenant`. -/
def Database.get_avenants (db : Database) (code : Cell) : List AvenantRec :=
  db.avenants.filter (fun a => sqlEqText a.code_marche code)

/-- The effective contract kind:
`marche["type_marche"] if marche["type_marche"] else "CLASSIQUE"`
(`NULL` and the empty string both default to `CLASSIQUE`). -/
def type_marche_effective (m : MarcheRec) : String :=
  match m.type_marche with
  | some t => if t = "" then "CLASSIQUE" else t
  | none => "CLASSIQUE"

/-- The signed contribution of one amendment inside
`get_montant_total_marche`: `-montant` when `type_modification` is
`"Diminution"`, `+montant` otherwise (`NULL` montant counts as `0`). -/
def montant_avenant_signe (a : AvenantRec) : ℚ :=
  let m := a.montant.getD 0
  if a.type_modification = "Diminution" then -m else m

/-- `Database.get_montant_total_marche`: manual base amount, plus the
amounts of the `tranches` table for CLASSIQUE contracts, plus the signed
amendments (accumulated in a loop, as in the source). -/
def Database.get_montant_total_marche (db : Database) (code : Cell) : ℚ :=
  match db.get_marche code with
  | none => 0
  | some m =>
    let base := m.montant_initial_manuel.getD 0
    let tranches := db.get_tranches code
    let base :=
      if type_marche_effective m = "CLASSIQUE" ∧ tranches ≠ [] then
        base + (tranches.map (fun t => t.montant.getD 0)).sum
      else base
    (db.get_avenants code).foldl (fun acc a => acc + montant_avenant_signe a) base

namespace MarchesAnalyzer

/-- The row mask shared by the per-tranche computations:
`(df[COL_MARCHE] == marche) & (df[COL_TRANCHE].isna()` if the requested
tranche is `NaN`, else `df[COL_TRANCHE] == tranche)`. -/
def matchesTranche (marche tranche : Cell) (r : ExcelRow) : Bool :=
  r.marche.eqv marche &&
    (if tranche.isna then r.tranche.isna else r.tranche.eqv tranche)

/-- The early-return database branch of `calculate_montant_initial_tranche`
(priorities 1 and 2): for the firm tranche (`NaN` or `0`) a truthy
`montant_initial_manuel`, otherwise a truthy amount from the `tranches`
table under the code `TO{int(tranche)}` (or `str(tranche)` when the tranche
does not parse as a float).  `none` falls through to the Excel
computation. -/
def montant_initial_db_override (db : Option Database) (marche tranche : Cell) :
    Option ℚ :=
  match db with
  | none => none
  | some d =>
    let tranche_num : Option ℚ := if tranche.isna then none else tranche.pyFloat
    if tranche.isna ∨ tranche_num = some 0 then
      match d.get_marche marche with
      | some m =>
        match m.montant_initial_manuel with
        | some q => if q ≠ 0 then some q else none
        | none => none
      | none => none
    else
      let code_tranche : String :=
        match tranche_num with
        | some q => "TO" ++ toString (truncQ q)
        | none => tranche.pyStr
      match d.tranches.find? (fun t =>
          sqlEqText t.code_marche marche && t.code_tranche == code_tranche) with
      | some t =>
        match t.montant with
        | some q => if q ≠ 0 then some q else none
        | none => none
      | none => none

/-- The Excel fallback of `calculate_montant_initial_tranche` (priority 3):
coerce the initial amounts of the matching rows to numbers (`NaN` → `0`),
keep the values above `0.01`, deduplicate, sum. -/
def montant_initial_excel (df : List ExcelRow) (marche tranche : Cell) : ℚ :=
  let df_tranche := df.filter (matchesTranche marche tranche)
  if df_tranche.length = 0 then 0
  else
    let montants := df_tranche.map (fun r => toNumeric r.montant_initial)
    let montants := montants.filter (fun q => decide ((0.01 : ℚ) < q))
    (uniqueList montants).sum

/-- `MarchesAnalyzer.calculate_montant_initial_tranche` over the analyzer's
`df_marches` rows `df` and the optional override store `db`. -/
def calculate_montant_initial_tranche (db : Option Database)
    (df : List ExcelRow) (marche tranche : Cell) : ℚ :=
  match montant_initial_db_override db marche tranche with
  | some q => q
  | none => montant_initial_excel df marche tranche

/-- The mandate filter of the paid computations:
`df[COL_MANDAT].notna() & (df[COL_MANDAT] != '')`. -/
def mandat_renseigne (r : ExcelRow) : Bool :=
  !r.num_mandat.isna && !(r.num_mandat.eqv (Cell.str ""))

/-- `MarchesAnalyzer.calculate_paye_tranche`: sum of the TTC amounts of the
matching rows whose mandate reference is present and non-empty. -/
def calculate_paye_tranche (df : List ExcelRow) (marche tranche : Cell) : ℚ :=
  let df_tranche :=
    df.filter (fun r => matchesTranche marche tranche r && mandat_renseigne r)
  if df_tranche.length = 0 then 0
  else (df_tranche.map (fun r => toNumeric r.montant_ttc)).sum

/-- Python `str.rfind` on a character list: highest index of `c`, `-1` when
absent. -/
def str_rfind (cs : List Char) (c : Char) : Int :=
  match cs with
  | [] => -1
  | x :: xs =>
    let r := str_rfind xs c
    if 0 ≤ r then r + 1 else if x == c then 0 else -1

/-- A separator character of the operation-code heuristic. -/
def isSep (c : Char) : Bool := c == '_' || c == '-'

/-- `MarchesAnalyzer.extract_operation`. -/
def extract_operation (marche : Cell) : String :=
  if marche.truthy = false then ""
  else
    let normalized := pyStrip marche.pyStr
    let chars := normalized.toList
    let total_separators :=
      chars.countP (fun c => c == '_') + chars.countP (fun c => c == '-')
    if total_separators < 2 then normalized
    else
      let last_sep := max (str_rfind chars '_') (str_rfind chars '-')
      if 0 < last_sep then
        let suffix := chars.drop (last_sep.toNat + 1)
        if !suffix.isEmpty && suffix.all Char.isDigit &&
            decide (suffix.length ≤ 2) then
          String.mk (chars.take last_sep.toNat)
        else normalized
      else normalized

/-- One result row of `get_vision_globale`. -/
structure VisionRow where
  marche : Cell
  operation : String
  libelle_marche : Cell
  fournisseur : Cell
  montant_initial_marche : ℚ
  service_fait_cumule : ℚ
  paye_cumule : ℚ
  reste_a_realiser : ℚ
  reste_a_mandater : ℚ
  pourcent_consomme : ℚ
  nb_avenants : Nat
  montant_excel : ℚ
deriving DecidableEq

/-- The loop body of `get_vision_globale` for one contract value. -/
def vision_entry (db : Option Database) (df : List ExcelRow) (marche : Cell) :
    VisionRow :=
  let df_marche := df.filter (fun r => r.marche.eqv marche)
  let fournisseurs :=
    (df_marche.map (fun r => r.fournisseur)).filter (fun c => !c.isna)
  let fournisseur := fournisseurs.headD (Cell.str "")
  let libelles :=
    (df_marche.map (fun r => r.libelle)).filter (fun c => !c.isna)
  let libelle := libelles.headD (Cell.str "")
  let fromDb : Option (ℚ × Nat) :=
    match db with
    | some d =>
      let montant_bd := d.get_montant_total_marche marche
      if 0 < montant_bd then some (montant_bd, (d.get_avenants marche).length)
      else none
    | none => none
  let montant_excel : ℚ :=
    match fromDb with
    | some _ => 0
    | none =>
      ((uniqueList (df_marche.map (fun r => r.tranche))).map
        (fun t => calculate_montant_initial_tranche db df marche t)).sum
  let montant_initial_marche :=
    match fromDb with
    | some p => p.1
    | none => montant_excel
  let nb_avenants : Nat :=
    match fromDb with
    | some p => p.2
    | none => 0
  let sf := (df_marche.map (fun r => toNumeric r.montant_sf)).sum
  let df_mandates := df_marche.filter mandat_renseigne
  let paye := (df_mandates.map (fun r => toNumeric r.montant_ttc)).sum
  let pourcent :=
    if 0 < montant_initial_marche then sf / montant_initial_marche * 100 else 0
  { marche := marche
    operation := extract_operation marche
    libelle_marche := libelle
    fournisseur := fournisseur
    montant_initial_marche := montant_initial_marche
    service_fait_cumule := sf
    paye_cumule := paye
    reste_a_realiser := montant_initial_marche - sf
    reste_a_mandater := sf - paye
    pourcent_consomme := pourcent
    nb_avenants := nb_avenants
    montant_excel := montant_excel }

/-- `MarchesAnalyzer.get_vision_globale`: one row per distinct contract
value of `df_marches`, sorted by contract code ascending. -/
def get_vision_globale (db : Option Database) (df : List ExcelRow) :
    List VisionRow :=
  if df.length = 0 then []
  else
    stableSortBy (fun a b => cellLt a.marche b.marche)
      ((uniqueList (df.map (fun r => r.marche))).map (vision_entry db df))

/-- One result row of `get_historique_factures`. -/
structure HistRow where
  marche : Cell
  fournisseur : String
  date_sf : String
  num_facture : String
  libelle : String
  montant_sf : ℚ
  montant_ttc : ℚ
  num_mandat : String
  statut : String
deriving DecidableEq

/-- `str(v) if pd.notna(v) else ""`. -/
def strOrEmpty (c : Cell) : String := if c.isna then "" else c.pyStr

/-- The loop body of `get_historique_factures` for one row.  A `num` date
cell takes the `str(date_sf)` fallback branch (datetime cells, whose
`strftime` rendering the claims never touch, are outside the `Cell`
model). -/
def hist_entry (r : ExcelRow) : HistRow :=
  let montant_sf := toNumeric r.montant_sf
  let montant_ttc := toNumeric r.montant_ttc
  let date_sf_str :=
    match r.date_sf with
    | .nan => ""
    | .str s => s
    | .num q => (Cell.num q).pyStr
  let has_mandat := !r.num_mandat.isna && (pyStrip r.num_mandat.pyStr != "")
  let has_facture := !r.num_facture.isna && (pyStrip r.num_facture.pyStr != "")
  let has_sf := decide ((0.01 : ℚ) < montant_sf)
  let statut :=
    if has_mandat then "✅ Payé"
    else if has_sf then "⏳ Service fait"
    else if has_facture then "📋 Facturée"
    else "⚠️ En attente"
  { marche := r.marche
    fournisseur := strOrEmpty r.fournisseur
    date_sf := date_sf_str
    num_facture := strOrEmpty r.num_facture
    libelle := strOrEmpty r.libelle
    montant_sf := montant_sf
    montant_ttc := montant_ttc
    num_mandat := strOrEmpty r.num_mandat
    statut := statut }

/-- The sort key order of `get_historique_factures`: Python tuple `<` on
`(marche, date_sf)`. -/
def histKeyLt (a b : HistRow) : Bool :=
  if a.marche.eqv b.marche then strLt a.date_sf b.date_sf
  else cellLt a.marche b.marche

/-- `MarchesAnalyzer.get_historique_factures`: one result row per retained
source row, sorted with `reverse=True` on the `(marche, date_sf)` key. -/
def get_historique_factures (df : List ExcelRow) (marche : Option Cell) :
    List HistRow :=
  if df.length = 0 then []
  else
    let df_filtered : List ExcelRow :=
      match marche with
      | some m => if m.truthy then df.filter (fun r => r.marche.eqv m) else df
      | none => df
    stableSortBy (fun a b => histKeyLt b a) (df_filtered.map hist_entry)

end MarchesAnalyzer

/-- Is the cell a string value? -/
def Cell.isStr : Cell → Bool
  | .str _ => true
  | _ => false

/-- The stored hashes of the row table, in rowid order
(`SELECT hash_ligne FROM lignes_factures`). -/
def MarchesSync.storedHashes (st : MarchesSync.SyncState) : List String :=
  st.lignes_factures.map (fun rd => rd.hash_ligne)

/-- Claim C3's reading of the Excel fallback of `tranche_initial_amount`:
coerce to numeric, discard the NON-POSITIVE values (rather than the values
of at most `0.01`), deduplicate, sum the distinct values. -/
def tranche_initial_amount_claimed (df : List ExcelRow) (marche tranche : Cell) :
    ℚ :=
  let montants :=
    (df.filter (MarchesAnalyzer.matchesTranche marche tranche)).map
      (fun r => toNumeric r.montant_initial)
  (uniqueList (montants.filter (fun q => decide (0 < q)))).sum

/-- Claim C4's reading of the committed-total resolution in
`get_vision_globale`: use the override store exactly when a POSITIVE MANUAL
BASE AMOUNT exists there (the code instead tests the sign of the fully
resolved total), else fall back to the per-tranche Excel sum. -/
def vision_montant_claimed (d : Database) (df : List ExcelRow) (marche : Cell) :
    ℚ :=
  let fallback :=
    ((uniqueList ((df.filter (fun r => r.marche.eqv marche)).map
        (fun r => r.tranche))).map
      (fun t => MarchesAnalyzer.calculate_montant_initial_tranche (some d) df
        marche t)).sum
  match d.get_marche marche with
  | some m =>
    if 0 < m.montant_initial_manuel.getD 0 then
      m.montant_initial_manuel.getD 0
        + ((d.get_avenants marche).map montant_avenant_signe).sum
        + (if type_marche_effective m = "CLASSIQUE" then
             ((d.get_tranches marche).map (fun t => t.montant.getD 0)).sum
           else 0)
    else fallback
  | none => fallback

/-- The characters after the LAST separator of the code, `none` when the
code has no separator (spec-side formulation for claim C6). -/
def suffix_after_last_sep : List Char → Option (List Char)
  | [] => none
  | c :: cs =>
    match suffix_after_last_sep cs with
    | some s => some s
    | none => if MarchesAnalyzer.isSep c then some cs else none

/-- Claim C6's rule, applied verbatim to the given code (no whitespace
normalisation): fewer than two separators — the code itself; otherwise
strip a purely numeric suffix of at most two digits together with its
separator, and return the code unchanged for any other suffix. -/
def operation_of_claimed (code : String) : String :=
  let cs := code.toList
  if cs.countP MarchesAnalyzer.isSep < 2 then code
  else
    match suffix_after_last_sep cs with
    | some suffix =>
      if suffix ≠ [] ∧ suffix.all Char.isDigit ∧ suffix.length ≤ 2 then
        String.mk (cs.take (cs.length - suffix.length - 1))
      else code
    | none => code

/-- A minimal imported row: the given contract, tranche and initial-amount
cells, everything else missing.  Used for the concrete instances below. -/
def mkRow (m t mi : Cell) : ExcelRow :=
  { marche := m, fournisseur := .nan, libelle := .nan, date_sf := .nan,
    num_facture := .nan, montant_initial := mi, montant_sf := .nan,
    montant_ttc := .nan, num_mandat := .nan, tranche := t, commande := .nan }

/-- The `row_data` record `sync_from_excel` builds for a row (its hash with
the extracted columns); total on the rows used below, whose conversions all
succeed. -/
def rowDataOf (r : ExcelRow) : MarchesSync.RowData :=
  (MarchesSync.extractRowData (MarchesSync.calculate_row_hash r) r).getD
    { hash_ligne := "", marche := none, fournisseur := none, libelle := none,
      date_sf := none, num_facture := none, montant_initial := 0,
      montant_sf := 0, montant_ttc := 0, num_mandat := none, tranche := none,
      commande := none }

/-- C1 instance: the last snapshot of `suivi.xlsx`. -/
def infoC1 : MarchesSync.SyncInfo :=
  { fichier_path := "suivi.xlsx", last_modified := 1000, file_size := 500,
    file_hash := "aaaa", nb_lignes := 3, sync_status := "success",
    sync_message := "ok" }

/-- C1 instance: a store whose snapshot history holds `infoC1`. -/
def stC1 : MarchesSync.SyncState := { lignes_factures := [], sync_info := [infoC1] }

/-- C1 instance: the current file — same size as the snapshot, same mtime,
DIFFERENT content hash. -/
def fsC1 : MarchesSync.FileStat :=
  { st_size := 500, st_mtime := 1000, contentHash := "bbbb" }

/-- C1 witness instance: same size, mtime 999 seconds later, different
hash. -/
def fsC1w : MarchesSync.FileStat :=
  { st_size := 500, st_mtime := 1999, contentHash := "bbbb" }

/-- C2 instance: the four distinct rows whose hashes play A, B, C, D. -/
def rowA2 : ExcelRow := mkRow (.str "2024_01") .nan (.num 100)

/-- C2 instance, row with hash B. -/
def rowB2 : ExcelRow := mkRow (.str "2024_02") .nan (.num 200)

/-- C2 instance, row with hash C. -/
def rowC2 : ExcelRow := mkRow (.str "2024_03") .nan (.num 300)

/-- C2 instance, row with hash D. -/
def rowD2 : ExcelRow := mkRow (.str "2024_04") .nan (.num 400)

/-- C2 instance: prior store holding the rows with hashes `{A, B, C}`. -/
def stC2 : MarchesSync.SyncState :=
  { lignes_factures := [rowDataOf rowA2, rowDataOf rowB2, rowDataOf rowC2],
    sync_info := [] }

/-- C2 instance: incoming import yielding hashes `{B, C, D}`. -/
def dfC2 : List ExcelRow := [rowB2, rowC2, rowD2]

/-- C3 instance: five rows of one (contract, tranche) with initial amounts
`[100, 100, 100, 0, 50]`. -/
def dfC3 : List ExcelRow :=
  [mkRow (.str "M") .nan (.num 100), mkRow (.str "M") .nan (.num 100),
   mkRow (.str "M") .nan (.num 100), mkRow (.str "M") .nan (.num 0),
   mkRow (.str "M") .nan (.num 50)]

/-- C3 counterexample instance: one row whose initial amount is the positive
value `0.005`, which the code discards (`> 0.01` filter) but the claim
keeps (non-positive filter). -/
def dfC3x : List ExcelRow := [mkRow (.str "M") .nan (.num (mkRat 5 1000))]

/-- C4 counterexample instance: a purchase-order-based contract with no
manual base amount and one INCREASE amendment of `50`. -/
def dbC4 : Database :=
  { marches := [{ code_marche := "M", type_marche := some "BDC",
                  montant_initial_manuel := none }],
    tranches := [],
    avenants := [{ code_marche := "M", montant := some 50,
                   type_modification := "Augmentation" }] }

/-- C4 counterexample instance: one imported row for the contract, initial
amount `200`. -/
def dfC4 : List ExcelRow := [mkRow (.str "M") .nan (.num 200)]

/-- C4 witness instance: a CLASSIC contract with manual base `1000`, one
optional tranche of `300`, one INCREASE of `50` and one DECREASE of `20`. -/
def dbC4w : Database :=
  { marches := [{ code_marche := "M", type_marche := some "CLASSIQUE",
                  montant_initial_manuel := some 1000 }],
    tranches := [{ code_marche := "M", code_tranche := "TO1",
                   montant := some 300 }],
    avenants := [{ code_marche := "M", montant := some 50,
                   type_modification := "Augmentation" },
                 { code_marche := "M", montant := some 20,
                   type_modification := "Diminution" }] }

/-- C5 instance: a row with TTC amount `500` and the given mandate cell. -/
def rowPay (mand : Cell) : ExcelRow :=
  { marche := .str "M", fournisseur := .nan, libelle := .nan, date_sf := .nan,
    num_facture := .nan, montant_initial := .nan, montant_sf := .nan,
    montant_ttc := .num 500, num_mandat := mand, tranche := .nan,
    commande := .nan }

/-- C7 instance: the current stat/hash of the (unchanged) source file. -/
def fsC7 : MarchesSync.FileStat :=
  { st_size := 500, st_mtime := 1000, contentHash := "h1" }

/-- C7 instance: a one-row import. -/
def dfC7 : List ExcelRow := [mkRow (.str "M") .nan (.num 100)]

/-- C9 instance: an invoice row of the given contract and service-fait
date. -/
def rowHist (m d : Cell) : ExcelRow :=
  { marche := m, fournisseur := .nan, libelle := .nan, date_sf := d,
    num_facture := .nan, montant_initial := .nan, montant_sf := .nan,
    montant_ttc := .nan, num_mandat := .nan, tranche := .nan, commande := .nan }

/-- C9 counterexample instance: one row of contract `A`, one of contract
`B` (same date). -/
def dfC9 : List ExcelRow :=
  [rowHist (.str "A") (.str "01/01/2024"), rowHist (.str "B") (.str "01/01/2024")]

/-- C10 instance: field values `("a|b", "c", …)` in the two adjacent leading
columns. -/
def rowC10a : ExcelRow := { mkRow (.str "a|b") .nan .nan with fournisseur := .str "c" }

/-- C10 instance: the DISTINCT row with field values `("a", "b|c", …)`,
whose pipe-joined rendering coincides with that of `rowC10a`. -/
def rowC10b : ExcelRow := { mkRow (.str "a") .nan .nan with fournisseur := .str "b|c" }

/-- C10 instance: a store already holding `rowC10a`. -/
def stC10 : MarchesSync.SyncState :=
  { lignes_factures := [rowDataOf rowC10a], sync_info := [] }

/-- The fully resolved override total of a contract: manual base amount,
plus the `tranches`-table amounts for CLASSIQUE contracts, plus the signed
amendments, written as a closed sum (proved below to agree with the
accumulator loop of `Database.get_montant_total_marche`). -/
def resolved_total (d : Database) (code : Cell) : ℚ :=
  match d.get_marche code with
  | none => 0
  | some m =>
    m.montant_initial_manuel.getD 0
      + (if type_marche_effective m = "CLASSIQUE" then
           ((d.get_tranches code).map (fun t => t.montant.getD 0)).sum
         else 0)
      + ((d.get_avenants code).map montant_avenant_signe).sum

/-- C10 witness instance: field values `("p|q", "r", …)`. -/
def rowC10c : ExcelRow :=
  { mkRow (.str "p|q") .nan .nan with fournisseur := .str "r" }

/-- C10 witness instance: the row with field values `("p", "q|r", …)`,
pipe-joining to the same string as `rowC10c`. -/
def rowC10d : ExcelRow :=
  { mkRow (.str "p") .nan .nan with fournisseur := .str "q|r" }

theorem mem_uniqueAux {α : Type} [DecidableEq α] (x : α) :
    ∀ (l seen : List α), x ∈ uniqueAux l seen ↔ x ∈ l ∧ x ∉ seen := by
  intro l
  induction l with
  | nil => intro seen; simp [uniqueAux]
  | cons a t ih =>
    intro seen
    simp only [uniqueAux]
    by_cases h : a ∈ seen
    · rw [if_pos h, ih]
      constructor
      · rintro ⟨hx, hs⟩; exact ⟨List.mem_cons_of_mem a hx, hs⟩
      · rintro ⟨hx, hs⟩
        rcases List.mem_cons.mp hx with rfl | hx
        · exact absurd h hs
        · exact ⟨hx, hs⟩
    · rw [if_neg h]
      simp only [List.mem_cons, ih, List.mem_cons]
      by_cases hxa : x = a
      · subst hxa; simp [h]
      · simp [hxa]

theorem nodup_uniqueAux {α : Type} [DecidableEq α] :
    ∀ (l seen : List α), (uniqueAux l seen).Nodup := by
  intro l
  induction l with
  | nil => intro seen; simp [uniqueAux]
  | cons a t ih =>
    intro seen
    simp only [uniqueAux]
    by_cases h : a ∈ seen
    · rw [if_pos h]; exact ih seen
    · rw [if_neg h]
      refine List.Nodup.cons ?_ (ih (a :: seen))
      intro hc
      exact ((mem_uniqueAux a t (a :: seen)).mp hc).2 (List.mem_cons_self a seen)

theorem mem_uniqueList {α : Type} [DecidableEq α] (x : α) (l : List α) :
    x ∈ uniqueList l ↔ x ∈ l := by
  rw [uniqueList, mem_uniqueAux]
  simp

theorem nodup_uniqueList {α : Type} [DecidableEq α] (l : List α) :
    (uniqueList l).Nodup := nodup_uniqueAux l []

theorem toFinset_uniqueList {α : Type} [DecidableEq α] (l : List α) :
    (uniqueList l).toFinset = l.toFinset := by
  ext x
  simp [List.mem_toFinset, mem_uniqueList]

theorem sum_uniqueList (l : List ℚ) :
    (uniqueList l).sum = l.toFinset.sum id := by
  rw [← toFinset_uniqueList, List.sum_toFinset _ (nodup_uniqueList l)]
  simp

theorem insertSorted_perm {α : Type} (lt : α → α → Bool) (x : α) :
    ∀ l : List α, (insertSorted lt x l).Perm (x :: l) := by
  intro l
  induction l with
  | nil => simp [insertSorted]
  | cons y ys ih =>
    simp only [insertSorted]
    by_cases h : lt x y = true
    · rw [if_pos h]
    · rw [if_neg h]
      exact (ih.cons y).trans (List.Perm.swap x y ys)

theorem mem_insertSorted {α : Type} (lt : α → α → Bool) (x a : α) (l : List α) :
    a ∈ insertSorted lt x l ↔ a = x ∨ a ∈ l := by
  rw [(insertSorted_perm lt x l).mem_iff, List.mem_cons]

theorem stableSortBy_aux_perm {α : Type} (lt : α → α → Bool) :
    ∀ (l acc : List α),
      (l.foldl (fun a x => insertSorted lt x a) acc).Perm (acc ++ l) := by
  intro l
  induction l with
  | nil => intro acc; simp
  | cons x t ih =>
    intro acc
    simp only [List.foldl_cons]
    refine (ih (insertSorted lt x acc)).trans ?_
    refine (((insertSorted_perm lt x acc).append_right t).trans ?_)
    exact (List.perm_middle).symm

theorem stableSortBy_perm {α : Type} (lt : α → α → Bool) (l : List α) :
    (stableSortBy lt l).Perm l := by
  simpa using stableSortBy_aux_perm lt l []

theorem insertSorted_pairwise {α : Type} (lt : α → α → Bool) (S : List α)
    (asym : ∀ a ∈ S, ∀ b ∈ S, lt a b = true → lt b a = false)
    (tr : ∀ a ∈ S, ∀ b ∈ S, ∀ c ∈ S,
      lt a b = true → lt b c = true → lt a c = true)
    (x : α) (hx : x ∈ S) :
    ∀ l : List α, (∀ a ∈ l, a ∈ S) →
      l.Pairwise (fun a b => lt b a = false) →
      (insertSorted lt x l).Pairwise (fun a b => lt b a = false) := by
  intro l
  induction l with
  | nil => intro _ _; simp [insertSorted]
  | cons y ys ih =>
    intro hmem hp
    rw [List.pairwise_cons] at hp
    obtain ⟨hy, hys⟩ := hp
    have hyS : y ∈ S := hmem y (List.mem_cons_self y ys)
    simp only [insertSorted]
    by_cases h : lt x y = true
    · rw [if_pos h]
      refine List.Pairwise.cons ?_ (List.Pairwise.cons hy hys)
      intro z hz
      rcases List.mem_cons.mp hz with rfl | hz
      · exact asym x hx z hyS h
      · have hzS : z ∈ S := hmem z (List.mem_cons_of_mem y hz)
        by_contra hzx
        have hzx' : lt z x = true := by
          cases hlt : lt z x
          · exact absurd hlt hzx
          · rfl
        have := tr z hzS x hx y hyS hzx' h
        rw [hy z hz] at this
        exact Bool.false_ne_true this
    · rw [if_neg h]
      refine List.Pairwise.cons ?_
        (ih (fun a ha => hmem a (List.mem_cons_of_mem y ha)) hys)
      intro z hz
      rcases (mem_insertSorted lt x z ys).mp hz with rfl | hz
      · exact Bool.eq_false_iff.mpr h
      · exact hy z hz

theorem stableSortBy_aux_pairwise {α : Type} (lt : α → α → Bool) (S : List α)
    (asym : ∀ a ∈ S, ∀ b ∈ S, lt a b = true → lt b a = false)
    (tr : ∀ a ∈ S, ∀ b ∈ S, ∀ c ∈ S,
      lt a b = true → lt b c = true → lt a c = true) :
    ∀ (l acc : List α), (∀ a ∈ l, a ∈ S) → (∀ a ∈ acc, a ∈ S) →
      acc.Pairwise (fun a b => lt b a = false) →
      (l.foldl (fun a x => insertSorted lt x a) acc).Pairwise
        (fun a b => lt b a = false) := by
  intro l
  induction l with
  | nil => intro acc _ _ hacc; simpa using hacc
  | cons x t ih =>
    intro acc hl hacc hp
    simp only [List.foldl_cons]
    have hxS : x ∈ S := hl x (List.mem_cons_self x t)
    refine ih (insertSorted lt x acc)
      (fun a ha => hl a (List.mem_cons_of_mem x ha))
      (fun a ha => ?_)
      (insertSorted_pairwise lt S asym tr x hxS acc hacc hp)
    rcases (mem_insertSorted lt x a acc).mp ha with rfl | ha
    · exact hxS
    · exact hacc a ha

theorem stableSortBy_pairwise {α : Type} (lt : α → α → Bool) (S : List α)
    (asym : ∀ a ∈ S, ∀ b ∈ S, lt a b = true → lt b a = false)
    (tr : ∀ a ∈ S, ∀ b ∈ S, ∀ c ∈ S,
      lt a b = true → lt b c = true → lt a c = true)
    (l : List α) (hl : ∀ a ∈ l, a ∈ S) :
    (stableSortBy lt l).Pairwise (fun a b => lt b a = false) := by
  exact stableSortBy_aux_pairwise lt S asym tr l [] hl (by simp) (by simp)

theorem charListLt_irrefl : ∀ l : List Char, charListLt l l = false := by
  intro l
  induction l with
  | nil => rfl
  | cons a t ih => simp [charListLt, ih]

theorem charListLt_asymm :
    ∀ a b : List Char, charListLt a b = true → charListLt b a = false := by
  intro a
  induction a with
  | nil =>
    intro b h
    cases b with
    | nil => simp [charListLt] at h
    | cons y ys => rfl
  | cons x xs ih =>
    intro b h
    cases b with
    | nil => simp [charListLt] at h
    | cons y ys =>
      simp only [charListLt] at h ⊢
      by_cases h1 : x.toNat < y.toNat
      · rw [if_neg (Nat.lt_asymm h1), if_pos h1]
      · rw [if_neg h1] at h
        by_cases h2 : y.toNat < x.toNat
        · rw [if_pos h2] at h; exact absurd h (by simp)
        · rw [if_neg h2] at h
          rw [if_neg h2, if_neg h1]
          exact ih ys h

theorem charListLt_trans :
    ∀ a b c : List Char, charListLt a b = true → charListLt b c = true →
      charListLt a c = true := by
  intro a
  induction a with
  | nil =>
    intro b c hab hbc
    cases c with
    | nil =>
      cases b with
      | nil => exact hab
      | cons y ys => simp [charListLt] at hbc
    | cons z zs => rfl
  | cons x xs ih =>
    intro b c hab hbc
    cases b with
    | nil => simp [charListLt] at hab
    | cons y ys =>
      cases c with
      | nil => simp [charListLt] at hbc
      | cons z zs =>
        simp only [charListLt] at hab hbc ⊢
        by_cases h1 : x.toNat < y.toNat
        · by_cases h2 : y.toNat < z.toNat
          · rw [if_pos (Nat.lt_trans h1 h2)]
          · rw [if_neg h2] at hbc
            by_cases h3 : z.toNat < y.toNat
            · rw [if_pos h3] at hbc; exact absurd hbc (by simp)
            · have hyz : y.toNat = z.toNat := Nat.le_antisymm
                (Nat.le_of_not_lt h3) (Nat.le_of_not_lt h2)
              rw [if_pos (hyz ▸ h1)]
        · rw [if_neg h1] at hab
          by_cases h1' : y.toNat < x.toNat
          · rw [if_pos h1'] at hab; exact absurd hab (by simp)
          · rw [if_neg h1'] at hab
            have hxy : x.toNat = y.toNat := Nat.le_antisymm
              (Nat.le_of_not_lt h1') (Nat.le_of_not_lt h1)
            by_cases h2 : y.toNat < z.toNat
            · rw [if_pos (hxy ▸ h2)]
            · rw [if_neg h2] at hbc
              by_cases h3 : z.toNat < y.toNat
              · rw [if_pos h3] at hbc; exact absurd hbc (by simp)
              · rw [if_neg h3] at hbc
                rw [if_neg (hxy ▸ h2), if_neg (fun hc => h3 (hxy ▸ hc))]
                exact ih ys zs hab hbc

theorem charListLt_trichotomy :
    ∀ a b : List Char,
      charListLt a b = true ∨ charListLt b a = true ∨ a = b := by
  intro a
  induction a with
  | nil =>
    intro b
    cases b with
    | nil => exact Or.inr (Or.inr rfl)
    | cons y ys => exact Or.inl rfl
  | cons x xs ih =>
    intro b
    cases b with
    | nil => exact Or.inr (Or.inl rfl)
    | cons y ys =>
      by_cases h1 : x.toNat < y.toNat
      · exact Or.inl (by simp [charListLt, h1])
      · by_cases h2 : y.toNat < x.toNat
        · exact Or.inr (Or.inl (by simp [charListLt, h2]))
        · have hxy : x = y := by
            have hn : x.toNat = y.toNat := Nat.le_antisymm
              (Nat.le_of_not_lt h2) (Nat.le_of_not_lt h1)
            exact Char.ext (UInt32.toNat.inj hn)
          subst hxy
          rcases ih ys with h | h | h
          · exact Or.inl (by simp [charListLt, h])
          · exact Or.inr (Or.inl (by simp [charListLt, h]))
          · exact Or.inr (Or.inr (by rw [h]))

theorem strLt_irrefl (s : String) : strLt s s = false := charListLt_irrefl _

theorem strLt_asymm {a b : String} (h : strLt a b = true) : strLt b a = false :=
  charListLt_asymm _ _ h

theorem strLt_trans {a b c : String} (hab : strLt a b = true)
    (hbc : strLt b c = true) : strLt a c = true :=
  charListLt_trans _ _ _ hab hbc

theorem strLt_trichotomy (a b : String) :
    strLt a b = true ∨ strLt b a = true ∨ a = b := by
  rcases charListLt_trichotomy a.toList b.toList with h | h | h
  · exact Or.inl h
  · exact Or.inr (Or.inl h)
  · exact Or.inr (Or.inr (by
      have := congrArg String.mk h
      simpa using this))

theorem histKeyLt_asymm_str {a b : MarchesAnalyzer.HistRow}
    (ha : a.marche.isStr = true) (hb : b.marche.isStr = true)
    (h : MarchesAnalyzer.histKeyLt a b = true) :
    MarchesAnalyzer.histKeyLt b a = false := by
  rcases hma : a.marche with _ | qa | sa <;> rw [hma] at ha <;>
    simp [Cell.isStr] at ha
  rcases hmb : b.marche with _ | qb | sb <;> rw [hmb] at hb <;>
    simp [Cell.isStr] at hb
  by_cases he : sa = sb
  · subst he
    simp only [MarchesAnalyzer.histKeyLt, hma, hmb, Cell.eqv] at h ⊢
    simp only [decide_eq_true_eq, if_pos rfl] at h ⊢
    exact strLt_asymm h
  · simp only [MarchesAnalyzer.histKeyLt, hma, hmb, Cell.eqv, cellLt] at h ⊢
    rw [if_neg (by simp [he])] at h
    rw [if_neg (by simp; exact fun hc => he hc.symm)]
    exact strLt_asymm h

theorem histKeyLt_trans_str {a b c : MarchesAnalyzer.HistRow}
    (ha : a.marche.isStr = true) (hb : b.marche.isStr = true)
    (hc : c.marche.isStr = true)
    (hab : MarchesAnalyzer.histKeyLt a b = true)
    (hbc : MarchesAnalyzer.histKeyLt b c = true) :
    MarchesAnalyzer.histKeyLt a c = true := by
  rcases hma : a.marche with _ | qa | sa <;> rw [hma] at ha <;>
    simp [Cell.isStr] at ha
  rcases hmb : b.marche with _ | qb | sb <;> rw [hmb] at hb <;>
    simp [Cell.isStr] at hb
  rcases hmc : c.marche with _ | qc | sc <;> rw [hmc] at hc <;>
    simp [Cell.isStr] at hc
  simp only [MarchesAnalyzer.histKeyLt, hma, hmb, hmc, Cell.eqv,
    cellLt] at hab hbc ⊢
  by_cases h1 : sa = sb
  · subst h1
    rw [if_pos (by simp)] at hab
    by_cases h2 : sa = sc
    · subst h2
      rw [if_pos (by simp)] at hbc
      rw [if_pos (by simp)]
      exact strLt_trans hab hbc
    · rw [if_neg (by simp [h2])] at hbc
      rw [if_neg (by simp [h2])]
      exact hbc
  · rw [if_neg (by simp [h1])] at hab
    by_cases h2 : sb = sc
    · subst h2
      rw [if_neg (by simp [h1])]
      exact hab
    · rw [if_neg (by simp [h2])] at hbc
      by_cases h3 : sa = sc
      · subst h3
        have hfalse := strLt_trans hab hbc
        rw [strLt_irrefl] at hfalse
        exact absurd hfalse (by simp)
      · rw [if_neg (by simp [h3])]
        exact charListLt_trans _ _ _ hab hbc

theorem extractRowData_hash (h : String) (r : ExcelRow)
    (rd : MarchesSync.RowData)
    (hrd : MarchesSync.extractRowData h r = some rd) : rd.hash_ligne = h := by
  unfold MarchesSync.extractRowData at hrd
  cases h1 : MarchesSync.floatCol r.montant_initial with
  | none => rw [h1] at hrd; exact absurd hrd (by simp)
  | some mi =>
    cases h2 : MarchesSync.floatCol r.montant_sf with
    | none => rw [h1, h2] at hrd; exact absurd hrd (by simp)
    | some msf =>
      cases h3 : MarchesSync.floatCol r.montant_ttc with
      | none => rw [h1, h2, h3] at hrd; exact absurd hrd (by simp)
      | some mttc =>
        rw [h1, h2, h3] at hrd
        simp only [Option.some.injEq] at hrd
        rw [← hrd]

theorem processRows_ok (ex : List String) :
    ∀ df : List ExcelRow, MarchesSync.rowsExtractOk df = true →
      MarchesSync.processRows ex df = .ok
        (df.map MarchesSync.calculate_row_hash,
         df.filterMap (fun r =>
           if MarchesSync.calculate_row_hash r ∈ ex then none
           else MarchesSync.extractRowData (MarchesSync.calculate_row_hash r) r),
         df.countP (fun r => decide (MarchesSync.calculate_row_hash r ∈ ex))) := by
  intro df
  induction df with
  | nil => intro _; rfl
  | cons r rest ih =>
    intro h
    unfold MarchesSync.rowsExtractOk at h
    simp only [List.all_cons, Bool.and_eq_true] at h
    obtain ⟨h1, h2⟩ := h
    obtain ⟨rd, hrd⟩ := Option.isSome_iff_exists.mp h1
    have ihr := ih h2
    by_cases hcont : MarchesSync.calculate_row_hash r ∈ ex
    · simp [MarchesSync.processRows, hrd, ihr, hcont, List.filterMap_cons,
        List.countP_cons]
    · simp [MarchesSync.processRows, hrd, ihr, hcont, List.filterMap_cons,
        List.countP_cons]

theorem mem_foldl_insert_or_replace (rd : MarchesSync.RowData) :
    ∀ (ins rows : List MarchesSync.RowData), rd ∈ rows →
      ¬ rd.hash_ligne ∈ ins.map (fun x => x.hash_ligne) →
      rd ∈ ins.foldl MarchesSync.insert_or_replace rows := by
  intro ins
  induction ins with
  | nil => intro rows h _; simpa using h
  | cons a t ih =>
    intro rows h hn
    simp only [List.map_cons, List.mem_cons] at hn
    push_neg at hn
    simp only [List.foldl_cons]
    refine ih _ ?_ hn.2
    unfold MarchesSync.insert_or_replace
    refine List.mem_append_left _ ?_
    rw [List.mem_filter]
    refine ⟨h, ?_⟩
    simp only [bne_iff_ne, ne_eq]
    exact hn.1

theorem mem_map_hash_insert_or_replace (h : String)
    (rows : List MarchesSync.RowData) (a : MarchesSync.RowData) :
    h ∈ (MarchesSync.insert_or_replace rows a).map (fun x => x.hash_ligne) ↔
      h ∈ rows.map (fun x => x.hash_ligne) ∨ h = a.hash_ligne := by
  simp only [MarchesSync.insert_or_replace, List.map_append, List.mem_append,
    List.map_cons, List.map_nil, List.mem_singleton, List.mem_map,
    List.mem_filter]
  constructor
  · rintro (⟨x, ⟨hx, _⟩, rfl⟩ | rfl)
    · exact Or.inl ⟨x, hx, rfl⟩
    · exact Or.inr rfl
  · rintro (⟨x, hx, rfl⟩ | rfl)
    · by_cases he : x.hash_ligne = a.hash_ligne
      · exact Or.inr he
      · exact Or.inl ⟨x, ⟨hx, by simpa [bne_iff_ne] using he⟩, rfl⟩
    · exact Or.inr rfl

theorem mem_map_hash_foldl_ior (h : String) :
    ∀ (ins rows : List MarchesSync.RowData),
      h ∈ ((ins.foldl MarchesSync.insert_or_replace rows).map
        (fun x => x.hash_ligne)) ↔
        h ∈ rows.map (fun x => x.hash_ligne) ∨
          h ∈ ins.map (fun x => x.hash_ligne) := by
  intro ins
  induction ins with
  | nil => intro rows; simp
  | cons a t ih =>
    intro rows
    simp only [List.foldl_cons, ih, mem_map_hash_insert_or_replace,
      List.map_cons, List.mem_cons]
    tauto

theorem length_filter_dedup_eq_card (ex new : List String) :
    (ex.dedup.filter (fun h => !(new.contains h))).length =
      (ex.toFinset \ new.toFinset).card := by
  have hnd : (ex.dedup.filter (fun h => !(new.contains h))).Nodup :=
    (List.nodup_dedup ex).filter _
  rw [← List.toFinset_card_of_nodup hnd]
  congr 1
  ext a
  simp [List.mem_toFinset, List.mem_filter, List.mem_dedup, Finset.mem_sdiff]

theorem calculate_paye_tranche_eq_sum (df : List ExcelRow)
    (marche tranche : Cell) :
    MarchesAnalyzer.calculate_paye_tranche df marche tranche =
      ((df.filter (fun r => MarchesAnalyzer.matchesTranche marche tranche r &&
          MarchesAnalyzer.mandat_renseigne r)).map
        (fun r => toNumeric r.montant_ttc)).sum := by
  unfold MarchesAnalyzer.calculate_paye_tranche
  by_cases h : (df.filter (fun r =>
      MarchesAnalyzer.matchesTranche marche tranche r &&
        MarchesAnalyzer.mandat_renseigne r)).length = 0
  · rw [if_pos h]
    rw [List.length_eq_zero] at h
    rw [h]
    simp
  · rw [if_neg h]

theorem montant_initial_excel_eq_finset_sum (df : List ExcelRow)
    (marche tranche : Cell) :
    MarchesAnalyzer.montant_initial_excel df marche tranche =
      (((df.filter (MarchesAnalyzer.matchesTranche marche tranche)).map
        (fun r => toNumeric r.montant_initial)).filter
          (fun q => decide ((0.01 : ℚ) < q))).toFinset.sum id := by
  unfold MarchesAnalyzer.montant_initial_excel
  by_cases h : (df.filter (MarchesAnalyzer.matchesTranche marche tranche)).length = 0
  · rw [if_pos h]
    rw [List.length_eq_zero] at h
    rw [h]
    simp
  · rw [if_neg h]
    exact sum_uniqueList _

/-- C1 (corrected): when the most recent snapshot for the path exists, the
byte size matches and the recorded row count is non-zero, `file_needs_sync`
reports a change exactly when the mtime moved by MORE THAN ONE SECOND *and*
the content hash differs — with an unchanged mtime the hash is never
consulted, so a hash mismatch alone does not force a re-sync. -/
theorem C1_theorem (st : MarchesSync.SyncState) (path : String)
    (f : MarchesSync.FileStat) (info : MarchesSync.SyncInfo)
    (hlast : MarchesSync.lastSyncInfo st path = some info)
    (hsize : f.st_size = info.file_size)
    (hnb : info.nb_lignes ≠ 0) :
    (MarchesSync.file_needs_sync st path (some f)).1 =
      (decide (1 < |f.st_mtime - info.last_modified|) &&
        decide (f.contentHash ≠ info.file_hash)) := by
  simp only [MarchesSync.file_needs_sync, hlast]
  rw [if_neg (by simp [hsize]), if_neg hnb]
  by_cases hm : 1 < |f.st_mtime - info.last_modified|
  · rw [if_pos hm]
    by_cases hh : f.contentHash ≠ info.file_hash
    · rw [if_pos hh]
      simp [hm, hh]
    · rw [if_neg hh]
      simp [hm, hh]
  · rw [if_neg hm]
    simp [hm]

/-- C1 (counterexample): size matches, the content hash differs, yet with an
unchanged mtime `file_needs_sync` answers `(false, "Fichier inchangé")`,
contradicting the claim that a hash mismatch alone forces a re-sync. -/
theorem C1_counterexample :
    fsC1.st_size = infoC1.file_size ∧
    fsC1.contentHash ≠ infoC1.file_hash ∧
    MarchesSync.lastSyncInfo stC1 "suivi.xlsx" = some infoC1 ∧
    MarchesSync.file_needs_sync stC1 "suivi.xlsx" (some fsC1) =
      (false, "Fichier inchangé") :=
  ⟨by decide, by decide, by decide, by decide⟩

/-- C1 (witness): at a concrete input with the mtime moved by 999 seconds
and a differing hash, the theorem applies and yields `true`. -/
theorem C1_witness :
    (MarchesSync.file_needs_sync stC1 "suivi.xlsx" (some fsC1w)).1 = true := by
  rw [C1_theorem stC1 "suivi.xlsx" fsC1w infoC1 (by decide) (by decide)
    (by decide)]
  decide

/-- C3 (corrected): with no applicable override record, the tranche initial
amount is the sum of the DISTINCT coerced initial-amount values EXCEEDING
`0.01` over the matching rows (the claim instead said all positive values
are kept; values in `(0, 0.01]` are positive yet discarded). -/
theorem C3_theorem (db : Option Database) (df : List ExcelRow)
    (marche tranche : Cell)
    (hov : MarchesAnalyzer.montant_initial_db_override db marche tranche = none) :
    MarchesAnalyzer.calculate_montant_initial_tranche db df marche tranche =
      (((df.filter (MarchesAnalyzer.matchesTranche marche tranche)).map
        (fun r => toNumeric r.montant_initial)).filter
          (fun q => decide ((0.01 : ℚ) < q))).toFinset.sum id := by
  unfold MarchesAnalyzer.calculate_montant_initial_tranche
  rw [hov]
  exact montant_initial_excel_eq_finset_sum df marche tranche

/-- C3 (counterexample): a single matching row with the positive initial
amount `0.005` yields `0` from the code (the `> 0.01` filter discards it),
while the claim's discard-non-positive rule yields `0.005`. -/
theorem C3_counterexample :
    MarchesAnalyzer.calculate_montant_initial_tranche none dfC3x
        (.str "M") .nan = 0 ∧
    tranche_initial_amount_claimed dfC3x (.str "M") .nan = mkRat 5 1000 ∧
    (mkRat 5 1000 : ℚ) ≠ 0 :=
  ⟨by decide, by decide, by decide⟩

/-- C3 (witness): no override applies, and on initial amounts
`[100, 100, 100, 0, 50]` the theorem gives `150`. -/
theorem C3_witness :
    MarchesAnalyzer.montant_initial_db_override none (.str "M") .nan = none ∧
    MarchesAnalyzer.calculate_montant_initial_tranche none dfC3
      (.str "M") .nan = 150 := by
  refine ⟨rfl, ?_⟩
  rw [C3_theorem none dfC3 (.str "M") .nan rfl]
  decide

/-- C5 (confirmed): inserting one row into the data changes
`calculate_paye_tranche` by exactly its TTC amount when the row matches the
(contract, tranche) pair and carries a present, non-empty mandate
reference, and by `0` otherwise; in particular a TTC-500 row with an empty
mandate contributes `0`, and with mandate `"MD1"` contributes `500`. -/
theorem C5_theorem :
    (∀ (df₁ df₂ : List ExcelRow) (r : ExcelRow) (marche tranche : Cell),
      MarchesAnalyzer.calculate_paye_tranche (df₁ ++ r :: df₂) marche tranche =
        MarchesAnalyzer.calculate_paye_tranche (df₁ ++ df₂) marche tranche +
          (if (MarchesAnalyzer.matchesTranche marche tranche r &&
               MarchesAnalyzer.mandat_renseigne r) = true then
            toNumeric r.montant_ttc else 0)) ∧
    MarchesAnalyzer.calculate_paye_tranche [rowPay (.str "")]
      (.str "M") .nan = 0 ∧
    MarchesAnalyzer.calculate_paye_tranche [rowPay (.str "MD1")]
      (.str "M") .nan = 500 := by
  refine ⟨?_, by decide, by decide⟩
  intro df₁ df₂ r marche tranche
  rw [calculate_paye_tranche_eq_sum, calculate_paye_tranche_eq_sum]
  rw [List.filter_append, List.filter_append, List.filter_cons]
  by_cases h : (MarchesAnalyzer.matchesTranche marche tranche r &&
      MarchesAnalyzer.mandat_renseigne r) = true
  · rw [if_pos h, if_pos h]
    simp only [List.map_append, List.map_cons, List.sum_append, List.sum_cons]
    ring
  · rw [if_neg h, if_neg h]
    simp only [List.map_append, List.sum_append]
    ring

/-- C8 (confirmed): with a storage failure injected, `sync_from_excel`
leaves the store exactly as it was (any non-skipped run rolls back
atomically), and — whenever the run is not short-circuited as "skipped" and
the row conversions succeed — the returned stats carry status `error` with
the underlying failure message. -/
theorem C8_theorem (st : MarchesSync.SyncState) (path : String)
    (fs : Option MarchesSync.FileStat) (now : ℚ) (df : List ExcelRow)
    (force : Bool) (m : String) :
    (MarchesSync.sync_from_excel st path fs now df force (some m)).1 = st ∧
    ((MarchesSync.sync_from_excel st path fs now df force (some m)).2.status =
        "skipped" ∨
      (MarchesSync.sync_from_excel st path fs now df force (some m)).2.status =
        "error") ∧
    (force = true → MarchesSync.rowsExtractOk df = true →
      (MarchesSync.sync_from_excel st path fs now df true (some m)).2.status =
        "error" ∧
      (MarchesSync.sync_from_excel st path fs now df true (some m)).2.message =
        some m) := by
  refine ⟨?_, ?_, ?_⟩
  · simp only [MarchesSync.sync_from_excel]
    by_cases hskip : force = false ∧
        (MarchesSync.file_needs_sync st path fs).1 = false
    · rw [if_pos hskip]
    · rw [if_neg hskip]
      cases hp : MarchesSync.processRows
          (List.map (fun rd => rd.hash_ligne) st.lignes_factures) df with
      | error e => rfl
      | ok trip =>
        obtain ⟨nh, ins, unch⟩ := trip
        rfl
  · simp only [MarchesSync.sync_from_excel]
    by_cases hskip : force = false ∧
        (MarchesSync.file_needs_sync st path fs).1 = false
    · rw [if_pos hskip]
      exact Or.inl rfl
    · rw [if_neg hskip]
      cases hp : MarchesSync.processRows
          (List.map (fun rd => rd.hash_ligne) st.lignes_factures) df with
      | error e => exact Or.inr rfl
      | ok trip =>
        obtain ⟨nh, ins, unch⟩ := trip
        exact Or.inr rfl
  · intro _ hok
    simp only [MarchesSync.sync_from_excel]
    rw [if_neg (by simp)]
    rw [processRows_ok (List.map (fun rd => rd.hash_ligne) st.lignes_factures)
      df hok]
    exact ⟨rfl, rfl⟩

/-- C8 (witness): at a concrete forced run with an injected failure, the
store is unchanged and the stats carry the error status and message. -/
theorem C8_witness :
    (MarchesSync.sync_from_excel stC2 "f.xlsx" none 0 dfC7 true
        (some "disk I O error")).1 = stC2 ∧
    (MarchesSync.sync_from_excel stC2 "f.xlsx" none 0 dfC7 true
        (some "disk I O error")).2.status = "error" ∧
    (MarchesSync.sync_from_excel stC2 "f.xlsx" none 0 dfC7 true
        (some "disk I O error")).2.message = some "disk I O error" := by
  obtain ⟨h1, _, h3⟩ :=
    C8_theorem stC2 "f.xlsx" none 0 dfC7 true "disk I O error"
  exact ⟨h1, (h3 rfl (by decide)).1, (h3 rfl (by decide)).2⟩

theorem mem_map_hash_filter (p : String → Bool)
    (rows : List MarchesSync.RowData) (a : String) :
    a ∈ (rows.filter (fun rd => p rd.hash_ligne)).map
        (fun rd => rd.hash_ligne) ↔
      a ∈ rows.map (fun rd => rd.hash_ligne) ∧ p a = true := by
  simp only [List.mem_map, List.mem_filter]
  constructor
  · rintro ⟨x, ⟨hx, hp⟩, rfl⟩
    exact ⟨⟨x, hx, rfl⟩, hp⟩
  · rintro ⟨⟨x, hx, rfl⟩, hp⟩
    exact ⟨x, ⟨hx, hp⟩, rfl⟩

theorem mem_map_hash_filterMap (ex : List String) (a : String) :
    ∀ df : List ExcelRow, MarchesSync.rowsExtractOk df = true →
      (a ∈ (df.filterMap (fun r =>
          if MarchesSync.calculate_row_hash r ∈ ex then none
          else MarchesSync.extractRowData
            (MarchesSync.calculate_row_hash r) r)).map
          (fun rd => rd.hash_ligne) ↔
        a ∈ df.map MarchesSync.calculate_row_hash ∧ a ∉ ex) := by
  intro df
  induction df with
  | nil => intro _; simp
  | cons r rest ih =>
    intro hok
    unfold MarchesSync.rowsExtractOk at hok
    simp only [List.all_cons, Bool.and_eq_true] at hok
    obtain ⟨h1, h2⟩ := hok
    obtain ⟨rd, hrd⟩ := Option.isSome_iff_exists.mp h1
    have hh := extractRowData_hash _ _ _ hrd
    by_cases hc : MarchesSync.calculate_row_hash r ∈ ex
    · rw [List.filterMap_cons]
      simp only [if_pos hc]
      rw [ih h2]
      simp only [List.map_cons, List.mem_cons]
      constructor
      · rintro ⟨ha, hn⟩
        exact ⟨Or.inr ha, hn⟩
      · rintro ⟨rfl | ha, hn⟩
        · exact absurd hc hn
        · exact ⟨ha, hn⟩
    · rw [List.filterMap_cons]
      simp only [if_neg hc, hrd]
      simp only [List.map_cons, List.mem_cons, ih h2, hh]
      constructor
      · rintro (rfl | ⟨ha, hn⟩)
        · exact ⟨Or.inl rfl, hc⟩
        · exact ⟨Or.inr ha, hn⟩
      · rintro ⟨rfl | ha, hn⟩
        · exact Or.inl rfl
        · exact Or.inr ⟨ha, hn⟩

theorem length_filterMap_countP (ex : List String) :
    ∀ df : List ExcelRow, MarchesSync.rowsExtractOk df = true →
      (df.filterMap (fun r =>
          if MarchesSync.calculate_row_hash r ∈ ex then none
          else MarchesSync.extractRowData
            (MarchesSync.calculate_row_hash r) r)).length =
        df.countP (fun r =>
          decide (MarchesSync.calculate_row_hash r ∉ ex)) := by
  intro df
  induction df with
  | nil => intro _; rfl
  | cons r rest ih =>
    intro hok
    unfold MarchesSync.rowsExtractOk at hok
    simp only [List.all_cons, Bool.and_eq_true] at hok
    obtain ⟨h1, h2⟩ := hok
    obtain ⟨rd, hrd⟩ := Option.isSome_iff_exists.mp h1
    rw [List.filterMap_cons, List.countP_cons]
    by_cases hc : MarchesSync.calculate_row_hash r ∈ ex
    · simp [if_pos hc, ih h2, hc]
    · simp [if_neg hc, hrd, ih h2, hc]

/-- C2 (confirmed): a non-skipped `sync_from_excel` run counts as unchanged
exactly the incoming rows whose hash is already stored (leaving their
stored rows untouched), queues for insertion exactly the rows with unseen
hashes, deletes exactly the distinct stored hashes absent from the incoming
set, and leaves the store holding exactly the incoming hash set; on the
concrete instance with prior hashes `{A, B, C}` and incoming hashes
`{B, C, D}` it reports `nb_inserted = 1`, `nb_deleted = 1`,
`nb_unchanged = 2` and the post-sync store holds exactly `{B, C, D}`. -/
theorem C2_theorem :
    (∀ (st : MarchesSync.SyncState) (path : String)
        (fs : Option MarchesSync.FileStat) (now : ℚ) (df : List ExcelRow)
        (force : Bool),
      (force = true ∨ (MarchesSync.file_needs_sync st path fs).1 = true) →
      MarchesSync.rowsExtractOk df = true →
      ((MarchesSync.sync_from_excel st path fs now df force none).2.status =
          "success" ∧
       (MarchesSync.sync_from_excel st path fs now df force
           none).2.nb_unchanged =
         df.countP (fun r => decide (MarchesSync.calculate_row_hash r ∈
           MarchesSync.storedHashes st)) ∧
       (MarchesSync.sync_from_excel st path fs now df force
           none).2.nb_inserted =
         df.countP (fun r => decide (MarchesSync.calculate_row_hash r ∉
           MarchesSync.storedHashes st)) ∧
       (MarchesSync.sync_from_excel st path fs now df force
           none).2.nb_deleted =
         ((MarchesSync.storedHashes st).toFinset \
           (df.map MarchesSync.calculate_row_hash).toFinset).card ∧
       (MarchesSync.storedHashes
           (MarchesSync.sync_from_excel st path fs now df force
             none).1).toFinset =
         (df.map MarchesSync.calculate_row_hash).toFinset ∧
       (∀ rd ∈ st.lignes_factures,
         rd.hash_ligne ∈ df.map MarchesSync.calculate_row_hash →
           rd ∈ (MarchesSync.sync_from_excel st path fs now df force
             none).1.lignes_factures))) ∧
    ((MarchesSync.sync_from_excel stC2 "f.xlsx" none 0 dfC2 true
        none).2.nb_inserted = 1 ∧
     (MarchesSync.sync_from_excel stC2 "f.xlsx" none 0 dfC2 true
        none).2.nb_deleted = 1 ∧
     (MarchesSync.sync_from_excel stC2 "f.xlsx" none 0 dfC2 true
        none).2.nb_unchanged = 2 ∧
     (MarchesSync.storedHashes
         (MarchesSync.sync_from_excel stC2 "f.xlsx" none 0 dfC2 true
           none).1).toFinset =
       {MarchesSync.calculate_row_hash rowB2,
        MarchesSync.calculate_row_hash rowC2,
        MarchesSync.calculate_row_hash rowD2}) := by
  have hgen : ∀ (st : MarchesSync.SyncState) (path : String)
      (fs : Option MarchesSync.FileStat) (now : ℚ) (df : List ExcelRow)
      (force : Bool),
      (force = true ∨ (MarchesSync.file_needs_sync st path fs).1 = true) →
      MarchesSync.rowsExtractOk df = true →
      ((MarchesSync.sync_from_excel st path fs now df force none).2.status =
          "success" ∧
       (MarchesSync.sync_from_excel st path fs now df force
           none).2.nb_unchanged =
         df.countP (fun r => decide (MarchesSync.calculate_row_hash r ∈
           MarchesSync.storedHashes st)) ∧
       (MarchesSync.sync_from_excel st path fs now df force
           none).2.nb_inserted =
         df.countP (fun r => decide (MarchesSync.calculate_row_hash r ∉
           MarchesSync.storedHashes st)) ∧
       (MarchesSync.sync_from_excel st path fs now df force
           none).2.nb_deleted =
         ((MarchesSync.storedHashes st).toFinset \
           (df.map MarchesSync.calculate_row_hash).toFinset).card ∧
       (MarchesSync.storedHashes
           (MarchesSync.sync_from_excel st path fs now df force
             none).1).toFinset =
         (df.map MarchesSync.calculate_row_hash).toFinset ∧
       (∀ rd ∈ st.lignes_factures,
         rd.hash_ligne ∈ df.map MarchesSync.calculate_row_hash →
           rd ∈ (MarchesSync.sync_from_excel st path fs now df force
             none).1.lignes_factures)) := by
    intro st path fs now df force hforce hok
    have hne : ¬(force = false ∧
        (MarchesSync.file_needs_sync st path fs).1 = false) := by
      rcases hforce with h | h <;> simp [h]
    simp only [MarchesSync.sync_from_excel, MarchesSync.storedHashes]
    rw [if_neg hne,
      processRows_ok (List.map (fun rd => rd.hash_ligne) st.lignes_factures)
        df hok]
    refine ⟨rfl, rfl, ?_, ?_, ?_, ?_⟩
    · exact length_filterMap_countP _ df hok
    · exact length_filter_dedup_eq_card _ _
    · ext a
      simp only [List.mem_toFinset]
      rw [mem_map_hash_filter
        (fun h => !((List.filter
          (fun h => !((List.map MarchesSync.calculate_row_hash df).contains h))
          (List.map (fun rd => rd.hash_ligne) st.lignes_factures).dedup).contains
            h))]
      rw [mem_map_hash_foldl_ior,
        mem_map_hash_filterMap _ a df hok]
      simp only [List.contains, List.elem_eq_mem, List.mem_filter,
        List.mem_dedup, List.mem_map, Bool.not_eq_true', decide_eq_false_iff_not,
        decide_eq_true_eq]
      constructor
      · rintro ⟨hmem, hdel⟩
        rcases hmem with hold | ⟨hnew, _⟩
        · by_contra hnot
          exact hdel ⟨hold, hnot⟩
        · exact hnew
      · intro hnew
        refine ⟨?_, fun hc => hc.2 hnew⟩
        by_cases hold : ∃ x ∈ st.lignes_factures, x.hash_ligne = a
        · exact Or.inl hold
        · exact Or.inr ⟨hnew, hold⟩
    · intro rd hrd hmem
      rw [List.mem_filter]
      constructor
      · apply mem_foldl_insert_or_replace
        · exact hrd
        · intro hc
          rw [mem_map_hash_filterMap _ _ df hok] at hc
          exact hc.2 (List.mem_map_of_mem (fun x => x.hash_ligne) hrd)
      · simp only [List.contains, List.elem_eq_mem, List.mem_filter,
          List.mem_dedup, Bool.not_eq_true', decide_eq_false_iff_not]
        intro hc
        exact hc.2 hmem
  refine ⟨hgen, ?_⟩
  obtain ⟨_, hu, hi, hd, hset, _⟩ :=
    hgen stC2 "f.xlsx" none 0 dfC2 true (Or.inl rfl) (by decide)
  refine ⟨?_, ?_, ?_, ?_⟩
  · rw [hi]; decide
  · rw [hd]; decide
  · rw [hu]; decide
  · rw [hset]; decide

/-- C2 (witness): the theorem applied at the concrete `{A,B,C}` versus
`{B,C,D}` instance, hypotheses discharged, yields the success status. -/
theorem C2_witness :
    (MarchesSync.sync_from_excel stC2 "f.xlsx" none 0 dfC2 true
      none).2.status = "success" :=
  (C2_theorem.1 stC2 "f.xlsx" none 0 dfC2 true (Or.inl rfl) (by decide)).1

theorem lastSyncInfo_append (rows : List MarchesSync.RowData)
    (li : List MarchesSync.SyncInfo) (i : MarchesSync.SyncInfo) (p : String)
    (hp : i.fichier_path = p) :
    MarchesSync.lastSyncInfo ⟨rows, li ++ [i]⟩ p = some i := by
  unfold MarchesSync.lastSyncInfo
  rw [List.filter_append]
  simp only [List.filter_cons, List.filter_nil, hp]
  rw [if_pos (by simp)]
  exact List.getLast?_concat _

theorem file_needs_sync_after (st : MarchesSync.SyncState) (path : String)
    (f : MarchesSync.FileStat) (now : ℚ) (df : List ExcelRow)
    (hdf : df ≠ []) (hok : MarchesSync.rowsExtractOk df = true) :
    (MarchesSync.file_needs_sync
      (MarchesSync.sync_from_excel st path (some f) now df false none).1
      path (some f)).1 = false := by
  by_cases hskip1 : (MarchesSync.file_needs_sync st path (some f)).1 = false
  · have : (MarchesSync.sync_from_excel st path (some f) now df false
        none).1 = st := by
      simp only [MarchesSync.sync_from_excel]
      rw [if_pos ⟨trivial, hskip1⟩]
    rw [this]
    exact hskip1
  · simp only [MarchesSync.sync_from_excel]
    rw [if_neg (by simp [hskip1])]
    rw [processRows_ok (List.map (fun rd => rd.hash_ligne) st.lignes_factures)
      df hok]
    simp only [MarchesSync.file_needs_sync,
      lastSyncInfo_append _ _ _ _ rfl]
    rw [if_neg (by simp), if_neg (by simpa using hdf)]
    rw [if_neg (by simp)]

/-- C7 (corrected): for a NON-EMPTY row list, two successive unforced sync
runs against the same unchanged source yield status `skipped` on the second
run, which leaves the whole store (rows and snapshot log) exactly as the
first run left it.  (For an empty row list the recorded row count is `0`,
`file_needs_sync` answers `(true, "Base vide")` and the second run
re-synchronises with status `success` — the counterexample.) -/
theorem C7_theorem (st : MarchesSync.SyncState) (path : String)
    (f : MarchesSync.FileStat) (now now2 : ℚ) (df : List ExcelRow)
    (hdf : df ≠ []) (hok : MarchesSync.rowsExtractOk df = true) :
    (MarchesSync.sync_from_excel
        (MarchesSync.sync_from_excel st path (some f) now df false none).1
        path (some f) now2 df false none).2.status = "skipped" ∧
    (MarchesSync.sync_from_excel
        (MarchesSync.sync_from_excel st path (some f) now df false none).1
        path (some f) now2 df false none).1 =
      (MarchesSync.sync_from_excel st path (some f) now df false none).1 := by
  set st1 := (MarchesSync.sync_from_excel st path (some f) now df false
    none).1 with hst1
  have hns : (MarchesSync.file_needs_sync st1 path (some f)).1 = false := by
    rw [hst1]
    exact file_needs_sync_after st path f now df hdf hok
  constructor
  · show (MarchesSync.sync_from_excel st1 path (some f) now2 df false
        none).2.status = "skipped"
    simp only [MarchesSync.sync_from_excel]
    rw [if_pos ⟨trivial, hns⟩]
  · show (MarchesSync.sync_from_excel st1 path (some f) now2 df false
        none).1 = st1
    simp only [MarchesSync.sync_from_excel]
    rw [if_pos ⟨trivial, hns⟩]

/-- C7 (counterexample): with an EMPTY input row list the second unforced
call re-synchronises (`nb_lignes = 0` forces `"Base vide"`), returning
status `success`, not `skipped` as the claim states for every input row
list. -/
theorem C7_counterexample :
    (MarchesSync.sync_from_excel
        (MarchesSync.sync_from_excel ⟨[], []⟩ "f.xlsx" (some fsC7) 0 []
          false none).1
        "f.xlsx" (some fsC7) 0 [] false none).2.status = "success" ∧
    ("success" : String) ≠ "skipped" := ⟨by decide, by decide⟩

/-- C7 (witness): at a concrete one-row import the theorem applies and the
second call is skipped. -/
theorem C7_witness :
    (MarchesSync.sync_from_excel
        (MarchesSync.sync_from_excel ⟨[], []⟩ "f.xlsx" (some fsC7) 0 dfC7
          false none).1
        "f.xlsx" (some fsC7) 0 dfC7 false none).2.status = "skipped" :=
  (C7_theorem ⟨[], []⟩ "f.xlsx" fsC7 0 0 dfC7 (by decide) (by decide)).1

theorem countP_sep_split (cs : List Char) :
    cs.countP (fun c => c == '_') + cs.countP (fun c => c == '-') =
      cs.countP MarchesAnalyzer.isSep := by
  induction cs with
  | nil => rfl
  | cons a t ih =>
    simp only [List.countP_cons]
    have hif : ((if (a == '_') = true then 1 else 0) : Nat) +
        (if (a == '-') = true then 1 else 0) =
        (if MarchesAnalyzer.isSep a = true then 1 else 0) := by
      by_cases h1 : (a == '_') = true <;> by_cases h2 : (a == '-') = true
      · simp only [beq_iff_eq] at h1 h2
        rw [h1] at h2
        exact absurd h2 (by decide)
      · simp [MarchesAnalyzer.isSep, h1, h2]
      · simp [MarchesAnalyzer.isSep, h1, h2]
      · simp [MarchesAnalyzer.isSep, h1, h2]
    omega

theorem str_rfind_ge (ch : Char) :
    ∀ cs : List Char, -1 ≤ MarchesAnalyzer.str_rfind cs ch := by
  intro cs
  induction cs with
  | nil => simp [MarchesAnalyzer.str_rfind]
  | cons x xs ih =>
    simp only [MarchesAnalyzer.str_rfind]
    by_cases h : 0 ≤ MarchesAnalyzer.str_rfind xs ch
    · rw [if_pos h]; omega
    · rw [if_neg h]
      by_cases hx : (x == ch) = true
      · rw [if_pos hx]; omega
      · rw [if_neg hx]

theorem str_rfind_neg (ch : Char) :
    ∀ cs : List Char, MarchesAnalyzer.str_rfind cs ch = -1 ↔ ch ∉ cs := by
  intro cs
  induction cs with
  | nil => simp [MarchesAnalyzer.str_rfind]
  | cons x xs ih =>
    simp only [MarchesAnalyzer.str_rfind, List.mem_cons]
    by_cases h : 0 ≤ MarchesAnalyzer.str_rfind xs ch
    · rw [if_pos h]
      constructor
      · intro hc; omega
      · intro hc
        have hxs : MarchesAnalyzer.str_rfind xs ch = -1 :=
          ih.mpr (fun hm => hc (Or.inr hm))
        omega
    · rw [if_neg h]
      have hxs : MarchesAnalyzer.str_rfind xs ch = -1 := by
        have := str_rfind_ge ch xs
        omega
      have hnm : ch ∉ xs := ih.mp hxs
      by_cases hx : (x == ch) = true
      · rw [if_pos hx]
        simp only [beq_iff_eq] at hx
        subst hx
        constructor
        · intro hc; exact absurd hc (by norm_num)
        · intro hc; exact absurd (Or.inl rfl) hc
      · rw [if_neg hx]
        simp only [beq_iff_eq] at hx
        constructor
        · intro _ hc
          rcases hc with hc | hc
          · exact hx hc.symm
          · exact hnm hc
        · intro _; rfl

theorem suffix_none_iff :
    ∀ cs : List Char, suffix_after_last_sep cs = none ↔
      cs.countP MarchesAnalyzer.isSep = 0 := by
  intro cs
  induction cs with
  | nil => simp [suffix_after_last_sep]
  | cons c t ih =>
    simp only [suffix_after_last_sep, List.countP_cons]
    cases hs : suffix_after_last_sep t with
    | some s =>
      simp only []
      constructor
      · intro hc; exact absurd hc (by simp)
      · intro hc
        have := ih.mpr (by omega)
        rw [this] at hs
        exact absurd hs (by simp)
    | none =>
      have ht : t.countP MarchesAnalyzer.isSep = 0 := ih.mp hs
      simp only [ht]
      by_cases hsep : MarchesAnalyzer.isSep c = true
      · rw [if_pos hsep]
        simp [hsep]
      · rw [if_neg hsep]
        simp only [Bool.not_eq_true] at hsep
        simp [hsep]

theorem suffix_after_decomp :
    ∀ (cs suf : List Char), suffix_after_last_sep cs = some suf →
      ∃ pre c, cs = pre ++ c :: suf ∧ MarchesAnalyzer.isSep c = true ∧
        suf.countP MarchesAnalyzer.isSep = 0 ∧
        max (MarchesAnalyzer.str_rfind cs '_')
          (MarchesAnalyzer.str_rfind cs '-') = (pre.length : Int) := by
  intro cs
  induction cs with
  | nil => intro suf h; simp [suffix_after_last_sep] at h
  | cons a t ih =>
    intro suf h
    simp only [suffix_after_last_sep] at h
    cases hs : suffix_after_last_sep t with
    | some s =>
      rw [hs] at h
      simp only [Option.some.injEq] at h
      subst h
      obtain ⟨pre, c, hdec, hsep, hcnt, hmax⟩ := ih s hs
      refine ⟨a :: pre, c, by rw [hdec]; rfl, hsep, hcnt, ?_⟩
      have hb1 : -1 ≤ MarchesAnalyzer.str_rfind t '_' := str_rfind_ge '_' t
      have hb2 : -1 ≤ MarchesAnalyzer.str_rfind t '-' := str_rfind_ge '-' t
      simp only [MarchesAnalyzer.str_rfind, List.length_cons]
      rw [max_def] at hmax
      rw [max_def]
      split_ifs at hmax ⊢ <;> push_cast <;> omega
    | none =>
      rw [hs] at h
      by_cases hsep : MarchesAnalyzer.isSep a = true
      · rw [if_pos hsep] at h
        simp only [Option.some.injEq] at h
        subst h
        have hcnt : t.countP MarchesAnalyzer.isSep = 0 :=
          (suffix_none_iff t).mp hs
        refine ⟨[], a, rfl, hsep, hcnt, ?_⟩
        have h1 : MarchesAnalyzer.str_rfind t '_' = -1 := by
          rw [str_rfind_neg]
          intro hm
          have hpos : 0 < t.countP MarchesAnalyzer.isSep :=
            List.countP_pos_iff.mpr ⟨'_', hm, by decide⟩
          omega
        have h2 : MarchesAnalyzer.str_rfind t '-' = -1 := by
          rw [str_rfind_neg]
          intro hm
          have hpos : 0 < t.countP MarchesAnalyzer.isSep :=
            List.countP_pos_iff.mpr ⟨'-', hm, by decide⟩
          omega
        simp only [MarchesAnalyzer.str_rfind, h1, h2, List.length_nil]
        rw [if_neg (show ¬ ((0 : Int) ≤ -1) by omega)]
        rw [if_neg (show ¬ ((0 : Int) ≤ -1) by omega)]
        have hor : (a == '_') = true ∨ (a == '-') = true := by
          have hx := hsep
          unfold MarchesAnalyzer.isSep at hx
          simpa using hx
        rcases hor with hu | hu
        · rw [if_pos hu, max_def]
          split_ifs <;> omega
        · rw [if_pos hu, max_def]
          split_ifs <;> omega
      · rw [if_neg hsep] at h
        exact absurd h (by simp)

/-- C6 (corrected): `extract_operation` applies the claimed separator rule
to the WHITESPACE-STRIPPED contract code, not to the code itself (the claim
holds verbatim for codes without surrounding whitespace); the claim's three
instances hold, and the empty string maps to the empty string. -/
theorem C6_theorem :
    (∀ s : String, MarchesAnalyzer.extract_operation (Cell.str s) =
      operation_of_claimed (pyStrip s)) ∧
    MarchesAnalyzer.extract_operation (Cell.str "2024_17_1") = "2024_17" ∧
    MarchesAnalyzer.extract_operation (Cell.str "2024_1_3") = "2024_1" ∧
    MarchesAnalyzer.extract_operation (Cell.str "2025_12") = "2025_12" ∧
    MarchesAnalyzer.extract_operation (Cell.str "") = "" := by
  refine ⟨?_, by decide, by decide, by decide, by decide⟩
  intro s
  by_cases hs : s = ""
  · subst hs; decide
  · simp only [MarchesAnalyzer.extract_operation]
    rw [if_neg (by simp [Cell.truthy, hs])]
    simp only [Cell.pyStr]
    rw [countP_sep_split]
    unfold operation_of_claimed
    by_cases h2 : ((pyStrip s).toList).countP MarchesAnalyzer.isSep < 2
    · rw [if_pos h2, if_pos h2]
    · rw [if_neg h2, if_neg h2]
      obtain ⟨suf, hsuf⟩ : ∃ suf,
          suffix_after_last_sep ((pyStrip s).toList) = some suf := by
        cases hx : suffix_after_last_sep ((pyStrip s).toList) with
        | none => exact absurd ((suffix_none_iff _).mp hx) (by omega)
        | some s' => exact ⟨s', rfl⟩
      obtain ⟨pre, c, hdec, hsep, hcnt, hmax⟩ :=
        suffix_after_decomp _ suf hsuf
      simp only [hsuf, hmax]
      have hcount : ((pyStrip s).toList).countP MarchesAnalyzer.isSep =
          pre.countP MarchesAnalyzer.isSep + 1 := by
        rw [hdec, List.countP_append, List.countP_cons]
        simp [hsep, hcnt]
      have hprelen : 0 < pre.length := by
        have hnz : pre.countP MarchesAnalyzer.isSep ≠ 0 := by omega
        have hne : pre ≠ [] := by
          intro hE
          rw [hE] at hnz
          exact hnz rfl
        exact List.length_pos.mpr hne
      rw [if_pos (by exact_mod_cast hprelen)]
      have htn : ((pre.length : Int)).toNat = pre.length := Int.toNat_natCast _
      have hdropEq : ((pyStrip s).toList).drop (((pre.length : Int)).toNat + 1)
          = suf := by
        rw [htn, hdec]
        have hdd : (pre ++ c :: suf).drop (pre.length + 1) =
            ((pre ++ c :: suf).drop pre.length).drop 1 := by
          rw [List.drop_drop]
        rw [hdd, List.drop_left]
        rfl
      simp only [hdropEq]
      have hlen : ((pyStrip s).toList).length = pre.length + 1 + suf.length := by
        rw [hdec]
        simp only [List.length_append, List.length_cons]
        omega
      by_cases hcond : suf ≠ [] ∧ suf.all Char.isDigit = true ∧ suf.length ≤ 2
      · rw [if_pos (by
            obtain ⟨hc1, hc2, hc3⟩ := hcond
            simp only [Bool.and_eq_true, Bool.not_eq_true', decide_eq_true_eq]
            refine ⟨⟨?_, hc2⟩, hc3⟩
            rw [← Bool.not_eq_true, List.isEmpty_iff]
            exact hc1)]
        rw [if_pos hcond]
        congr 1
        rw [htn]
        congr 1
        omega
      · rw [if_neg (by
            intro hc
            simp only [Bool.and_eq_true, Bool.not_eq_true',
              decide_eq_true_eq] at hc
            obtain ⟨⟨hc1, hc2⟩, hc3⟩ := hc
            refine hcond ⟨?_, hc2, hc3⟩
            intro hE
            rw [hE] at hc1
            exact absurd hc1 (by decide))]
        rw [if_neg hcond]

/-- C6 (counterexample): the claim, applied verbatim to the code `"a_b "`
(one separator, so by the claim `operation_of` returns the code itself),
fails: the implementation strips the trailing whitespace and returns
`"a_b"`. -/
theorem C6_counterexample :
    MarchesAnalyzer.extract_operation (Cell.str "a_b ") = "a_b" ∧
    operation_of_claimed "a_b " = "a_b " ∧
    ("a_b" : String) ≠ "a_b " := ⟨by decide, by decide, by decide⟩

/-- C9 (corrected): `get_historique_factures` returns one result row per
retained source row — a permutation of the mapped (optionally
contract-filtered) rows — sorted so that no later entry has a strictly
GREATER `(contract, date)` key: contract DESCENDING, and date descending
within a contract (the claim instead said contract ascending). -/
theorem C9_theorem (df : List ExcelRow) (mf : Option Cell)
    (hstr : ∀ r ∈ df, r.marche.isStr = true) :
    (MarchesAnalyzer.get_historique_factures df mf).Perm
      (((match mf with
        | some m => if m.truthy = true then
            df.filter (fun r => r.marche.eqv m) else df
        | none => df : List ExcelRow)).map MarchesAnalyzer.hist_entry) ∧
    (MarchesAnalyzer.get_historique_factures df mf).Pairwise
      (fun a b => MarchesAnalyzer.histKeyLt a b = false) := by
  have main : ∀ l : List ExcelRow, (∀ r ∈ l, r ∈ df) →
      ((stableSortBy (fun a b => MarchesAnalyzer.histKeyLt b a)
        (l.map MarchesAnalyzer.hist_entry)).Perm
          (l.map MarchesAnalyzer.hist_entry) ∧
       (stableSortBy (fun a b => MarchesAnalyzer.histKeyLt b a)
         (l.map MarchesAnalyzer.hist_entry)).Pairwise
           (fun a b => MarchesAnalyzer.histKeyLt a b = false)) := by
    intro l hl
    have hmem : ∀ x ∈ l.map MarchesAnalyzer.hist_entry,
        x.marche.isStr = true := by
      intro x hx
      obtain ⟨r, hr, rfl⟩ := List.mem_map.mp hx
      exact hstr r (hl r hr)
    exact ⟨stableSortBy_perm _ _,
      stableSortBy_pairwise _ (l.map MarchesAnalyzer.hist_entry)
        (fun a ha b hb hab => histKeyLt_asymm_str (hmem b hb) (hmem a ha) hab)
        (fun a ha b hb c hc hab hbc =>
          histKeyLt_trans_str (hmem c hc) (hmem b hb) (hmem a ha) hbc hab)
        _ (fun a ha => ha)⟩
  cases mf with
  | none =>
    by_cases hdf : df.length = 0
    · rw [List.length_eq_zero] at hdf
      subst hdf
      exact ⟨by simp [MarchesAnalyzer.get_historique_factures],
             by simp [MarchesAnalyzer.get_historique_factures]⟩
    · have hm := main df (fun r hr => hr)
      constructor
      · simpa [MarchesAnalyzer.get_historique_factures, hdf] using hm.1
      · simpa [MarchesAnalyzer.get_historique_factures, hdf] using hm.2
  | some m =>
    by_cases hdf : df.length = 0
    · rw [List.length_eq_zero] at hdf
      subst hdf
      by_cases ht : m.truthy = true
      · exact ⟨by simp [MarchesAnalyzer.get_historique_factures, ht],
               by simp [MarchesAnalyzer.get_historique_factures, ht]⟩
      · exact ⟨by simp [MarchesAnalyzer.get_historique_factures, ht],
               by simp [MarchesAnalyzer.get_historique_factures, ht]⟩
    · by_cases ht : m.truthy = true
      · have hm := main (df.filter (fun r => r.marche.eqv m))
          (fun r hr => (List.mem_filter.mp hr).1)
        constructor
        · simpa [MarchesAnalyzer.get_historique_factures, hdf, ht] using hm.1
        · simpa [MarchesAnalyzer.get_historique_factures, hdf, ht] using hm.2
      · have hm := main df (fun r hr => hr)
        constructor
        · simpa [MarchesAnalyzer.get_historique_factures, hdf, ht] using hm.1
        · simpa [MarchesAnalyzer.get_historique_factures, hdf, ht] using hm.2

/-- C9 (counterexample): with one row of contract `A` and one of contract
`B`, the history lists `B` first — contract DESCENDING — contradicting the
claimed ascending contract order (which would list `A` first). -/
theorem C9_counterexample :
    (MarchesAnalyzer.get_historique_factures dfC9 none).map
      (fun h => h.marche) = [Cell.str "B", Cell.str "A"] ∧
    strLt "A" "B" = true := ⟨by decide, by decide⟩

/-- C9 (witness): the theorem applied to the concrete two-row data. -/
theorem C9_witness :
    (MarchesAnalyzer.get_historique_factures dfC9 none).Perm
      (dfC9.map MarchesAnalyzer.hist_entry) ∧
    (MarchesAnalyzer.get_historique_factures dfC9 none).Pairwise
      (fun a b => MarchesAnalyzer.histKeyLt a b = false) := by
  have h := C9_theorem dfC9 none (by decide)
  exact ⟨h.1, h.2⟩


theorem foldl_add_eq {α : Type} (f : α → ℚ) :
    ∀ (l : List α) (b : ℚ),
      l.foldl (fun acc a => acc + f a) b = b + (l.map f).sum := by
  intro l
  induction l with
  | nil => intro b; simp
  | cons x t ih =>
    intro b
    simp only [List.foldl_cons, List.map_cons, List.sum_cons, ih]
    ring

theorem get_montant_total_marche_eq (d : Database) (code : Cell) :
    d.get_montant_total_marche code = resolved_total d code := by
  unfold Database.get_montant_total_marche resolved_total
  cases hm : d.get_marche code with
  | none => rfl
  | some m =>
    dsimp only
    by_cases h1 : type_marche_effective m = "CLASSIQUE" ∧
        d.get_tranches code ≠ []
    · rw [if_pos h1, if_pos h1.1, foldl_add_eq montant_avenant_signe]
    · rw [if_neg h1, foldl_add_eq montant_avenant_signe]
      by_cases h2 : type_marche_effective m = "CLASSIQUE"
      · have hE : d.get_tranches code = [] := by
          by_contra hne
          exact h1 ⟨h2, hne⟩
        rw [if_pos h2, hE]
        simp
      · rw [if_neg h2]
        ring

/-- C4 (corrected): each per-contract row takes its committed amount from
the override store exactly when the FULLY RESOLVED override total — manual
base plus signed amendments (`+` for INCREASE, `-` for DECREASE) plus, for
CLASSIQUE contracts only, the `tranches`-table amounts — is POSITIVE (the
claim instead conditioned on a positive manual base amount alone);
otherwise it falls back to summing `calculate_montant_initial_tranche` over
the distinct tranches seen for the contract. -/
theorem C4_theorem (df : List ExcelRow) (d : Database)
    (r : MarchesAnalyzer.VisionRow)
    (hr : r ∈ MarchesAnalyzer.get_vision_globale (some d) df) :
    r.montant_initial_marche =
      (if 0 < resolved_total d r.marche then resolved_total d r.marche
       else
        ((uniqueList ((df.filter (fun x => x.marche.eqv r.marche)).map
            (fun x => x.tranche))).map
          (fun t => MarchesAnalyzer.calculate_montant_initial_tranche (some d)
            df r.marche t)).sum) := by
  unfold MarchesAnalyzer.get_vision_globale at hr
  by_cases hdf : df.length = 0
  · rw [if_pos hdf] at hr
    exact absurd hr (List.not_mem_nil r)
  · rw [if_neg hdf] at hr
    have hr2 := (stableSortBy_perm _ _).mem_iff.mp hr
    obtain ⟨mc, _, rfl⟩ := List.mem_map.mp hr2
    have hmarche : (MarchesAnalyzer.vision_entry (some d) df mc).marche = mc :=
      rfl
    rw [hmarche, ← get_montant_total_marche_eq d mc]
    by_cases hpos : 0 < d.get_montant_total_marche mc
    · have hfield :
          (MarchesAnalyzer.vision_entry (some d) df mc).montant_initial_marche
            = d.get_montant_total_marche mc := by
        simp only [MarchesAnalyzer.vision_entry]
        rw [if_pos hpos]
      rw [hfield, if_pos hpos]
    · have hfield :
          (MarchesAnalyzer.vision_entry (some d) df mc).montant_initial_marche
            = ((uniqueList ((df.filter (fun x => x.marche.eqv mc)).map
                (fun x => x.tranche))).map
              (fun t => MarchesAnalyzer.calculate_montant_initial_tranche
                (some d) df mc t)).sum := by
        simp only [MarchesAnalyzer.vision_entry]
        rw [if_neg hpos]
      rw [hfield, if_neg hpos]

/-- C4 (counterexample): a purchase-order-based contract with NO manual
base amount but one INCREASE amendment of `50` — the claim (no positive
manual amount) prescribes the Excel fallback `200`, while the code resolves
the override total `0 + 50 = 50 > 0` and uses `50`. -/
theorem C4_counterexample :
    (MarchesAnalyzer.get_vision_globale (some dbC4) dfC4).map
      (fun v => v.montant_initial_marche) = [50] ∧
    vision_montant_claimed dbC4 dfC4 (Cell.str "M") = 200 ∧
    (50 : ℚ) ≠ 200 := ⟨by decide, by decide, by decide⟩

/-- C4 (witness): on a CLASSIQUE contract with base `1000`, an optional
tranche of `300`, an INCREASE of `50` and a DECREASE of `20`, the theorem
applies and the resolved committed amount is `1330`. -/
theorem C4_witness :
    (MarchesAnalyzer.get_vision_globale (some dbC4w) dfC4).map
      (fun v => v.montant_initial_marche) = [1330] := by
  have hr : MarchesAnalyzer.vision_entry (some dbC4w) dfC4 (Cell.str "M") ∈
      MarchesAnalyzer.get_vision_globale (some dbC4w) dfC4 := by decide
  have h := C4_theorem dfC4 dbC4w _ hr
  rw [show MarchesAnalyzer.get_vision_globale (some dbC4w) dfC4 =
    [MarchesAnalyzer.vision_entry (some dbC4w) dfC4 (Cell.str "M")] by decide]
  simp only [List.map_cons, List.map_nil]
  rw [h]
  decide

/-- C10 (confirmed): the row hash is the MD5 of the pipe-joined stringified
row values, so any two rows whose stringified values coincide columnwise —
and, more loosely, any two rows with the same joined rendering, such as the
DISTINCT rows `("a|b", "c", …)` and `("a", "b|c", …)` — collide; a sync of
the colliding row against a store holding the first reports one unchanged
row, inserts and deletes nothing, and leaves the stored rows untouched. -/
theorem C10_theorem :
    (∀ r : ExcelRow, MarchesSync.calculate_row_hash r =
      MD5.md5Hex (String.intercalate "|" (r.values.map Cell.pyStr))) ∧
    (∀ r r' : ExcelRow,
      String.intercalate "|" (r.values.map Cell.pyStr) =
        String.intercalate "|" (r'.values.map Cell.pyStr) →
      MarchesSync.calculate_row_hash r = MarchesSync.calculate_row_hash r') ∧
    rowC10a ≠ rowC10b ∧
    MarchesSync.calculate_row_hash rowC10a =
      MarchesSync.calculate_row_hash rowC10b ∧
    (MarchesSync.sync_from_excel stC10 "f" none 0 [rowC10b] true
        none).2.nb_unchanged = 1 ∧
    (MarchesSync.sync_from_excel stC10 "f" none 0 [rowC10b] true
        none).2.nb_inserted = 0 ∧
    (MarchesSync.sync_from_excel stC10 "f" none 0 [rowC10b] true
        none).2.nb_deleted = 0 ∧
    (MarchesSync.sync_from_excel stC10 "f" none 0 [rowC10b] true
        none).1.lignes_factures = stC10.lignes_factures := by
  refine ⟨fun r => rfl, fun r r' h => ?_, by decide, by decide, by decide,
    by decide, by decide, by decide⟩
  unfold MarchesSync.calculate_row_hash
  rw [h]

/-- C10 (witness): the pipe-joined renderings of `("p|q", "r", …)` and
`("p", "q|r", …)` coincide, and the theorem therefore identifies their row
hashes. -/
theorem C10_witness :
    String.intercalate "|" (rowC10c.values.map Cell.pyStr) =
      String.intercalate "|" (rowC10d.values.map Cell.pyStr) ∧
    MarchesSync.calculate_row_hash rowC10c =
      MarchesSync.calculate_row_hash rowC10d :=
  ⟨by decide, C10_theorem.2.1 rowC10c rowC10d (by decide)⟩
